import Mathlib

set_option maxRecDepth 100000
set_option maxHeartbeats 2000000

/-!
Verification development for the GRN extraction core of
`reliance_grn_gdrive.py`.

The extraction core consists of
  * `clean_text` (source line 364): strip, replace newlines/CRs by spaces,
    one non-recursive pass replacing a double space by a single space;
  * `extract_grn_data` (source lines 380-427): seven header-field regexes,
    the derived `Challan No` field, and the item-table regex loop.

Every regex in the source has the special shape in which each quantifier
ranges over a single character class (never over a group), so a regex is
embedded exactly as a list of tokens (`Tok`): case-insensitive literals,
character-class repetitions with greedy/lazy backtracking, capture-group
markers, one negative lookbehind and one word boundary.  The engine
(`engine`) is a backtracking matcher implementing Python `re` semantics
(leftmost match, alternatives in order, greedy = longest-first,
lazy = shortest-first).  It is structurally recursive on a fuel argument
so that all definitions compute by kernel reduction; the fuel bounds only
the backtracking DEPTH, and the canonical runs are given a fuel that is
amply sufficient (each token contributes at most `|s| + 2` to the depth).
-/

namespace GRN

/-- Whitespace test modelling the regex class `\s` (and Python `str.strip`)
on ASCII text. -/
def isSpc (c : Char) : Bool :=
  c == ' ' || c == '\t' || c == '\n' || c == '\r' || c == '\x0b' || c == '\x0c'

/-- Class `\S`. -/
def isNotSpc (c : Char) : Bool := !(isSpc c)

/-- Class `\d`. -/
def isDigitC (c : Char) : Bool := c.isDigit

/-- Class `\w` on ASCII text. -/
def isWordC (c : Char) : Bool := c.isAlpha || c.isDigit || c == '_'

/-- Opposite-case counterpart of an ASCII letter; used to implement
`re.IGNORECASE` matching of a (concrete) pattern character against a text
character. -/
def caseFold (a : Char) : Char :=
  if 'a' ≤ a ∧ a ≤ 'z' then Char.ofNat (a.toNat - 32)
  else if 'A' ≤ a ∧ a ≤ 'Z' then Char.ofNat (a.toNat + 32)
  else a

/-- Single-character match of pattern char `a` against text char `b`,
case-insensitively when `ci` is true. -/
def charEq (ci : Bool) (a b : Char) : Bool := a == b || (ci && (caseFold a == b))

/-- Does the literal `l` match at the head of the text suffix? -/
def litAt (ci : Bool) : List Char → List Char → Bool
  | [], _ => true
  | _ :: _, [] => false
  | a :: as, b :: bs => charEq ci a b && litAt ci as bs

/-- Length of the maximal run of characters satisfying `p` at the head. -/
def countWhile (p : Char → Bool) : List Char → Nat
  | [] => 0
  | c :: cs => if p c then countWhile p cs + 1 else 0

/-- Is position `i` of `s` on a `\w` character? -/
def isWordAt (s : List Char) (i : Nat) : Bool :=
  match s[i]? with
  | some c => isWordC c
  | none => false

/-- Word-boundary test `\b` at position `pos`. -/
def atWordB (s : List Char) (pos : Nat) : Bool :=
  (if pos = 0 then false else isWordAt s (pos - 1)) != isWordAt s pos

/-- Regex tokens.  Every quantifier in the source patterns ranges over a
single character class, so a linear token list embeds each pattern exactly:
`lit` is a literal (case-insensitive when `ci`), `cls p lo hi lzy` is a
character-class repetition `p{lo,hi}` (lazy when `lzy`), `openG`/`closeG`
delimit capture group `n`, `nlook p` is the negative lookbehind `(?<!p)`,
and `wordB` is `\b`. -/
inductive Tok where
  | lit (ci : Bool) (cs : List Char)
  | cls (p : Char → Bool) (lo : Nat) (hi : Option Nat) (lzy : Bool)
  | openG (n : Nat)
  | closeG (n : Nat)
  | nlook (p : Char → Bool)
  | wordB

/-- Backtracking state: either running a token list at a position, or
trying the candidate repetition counts of a class token in order. -/
inductive MState where
  | run (toks : List Tok) (pos : Nat) (pend : List (Nat × Nat))
      (caps : List (Nat × Nat × Nat))
  | cnts (rest : List Tok) (ks : List Nat) (pos : Nat) (pend : List (Nat × Nat))
      (caps : List (Nat × Nat × Nat))

/-- The admissible repetition count bound for a class token `p{lo,hi}` at
`pos`: the maximal run length, capped by `hi` when present. -/
def clsBound (p : Char → Bool) (hi : Option Nat) (s : List Char) (pos : Nat) : Nat :=
  match hi with
  | none => countWhile p (s.drop pos)
  | some h => min (countWhile p (s.drop pos)) h

/-- The candidate repetition counts for a class whose admissible count range
is `[lo, m]`: shortest-first when lazy, longest-first when greedy. -/
def clsCounts (lo m : Nat) (lzy : Bool) : List Nat :=
  if lzy then List.range' lo (m - lo + 1) else (List.range' lo (m - lo + 1)).reverse

/-- The backtracking matcher.  `pend` maps open capture groups to their start
positions, `caps` collects closed captures `(group, start, stop)`; a
successful run returns the end position and the captures.  Structural
recursion on `fuel`, which bounds the backtracking depth only. -/
def engine (s : List Char) : Nat → MState → Option (Nat × List (Nat × Nat × Nat))
  | 0, _ => none
  | fuel + 1, MState.run toks pos pend caps =>
    match toks with
    | [] => some (pos, caps)
    | Tok.lit ci l :: rest =>
        if litAt ci l (s.drop pos) then
          engine s fuel (MState.run rest (pos + l.length) pend caps)
        else none
    | Tok.cls p lo hi lzy :: rest =>
        if clsBound p hi s pos < lo then none
        else engine s fuel
          (MState.cnts rest (clsCounts lo (clsBound p hi s pos) lzy) pos pend caps)
    | Tok.openG n :: rest => engine s fuel (MState.run rest pos ((n, pos) :: pend) caps)
    | Tok.closeG n :: rest =>
        match pend.find? (fun q => q.1 == n) with
        | some q => engine s fuel (MState.run rest pos pend ((n, q.2, pos) :: caps))
        | none => none
    | Tok.nlook p :: rest =>
        match (if pos = 0 then none else s[pos - 1]?) with
        | some c => if p c then none else engine s fuel (MState.run rest pos pend caps)
        | none => engine s fuel (MState.run rest pos pend caps)
    | Tok.wordB :: rest =>
        if atWordB s pos then engine s fuel (MState.run rest pos pend caps) else none
  | fuel + 1, MState.cnts rest ks pos pend caps =>
    match ks with
    | [] => none
    | k :: ks2 =>
        match engine s fuel (MState.run rest (pos + k) pend caps) with
        | some r => some r
        | none => engine s fuel (MState.cnts rest ks2 pos pend caps)

/-- Ample fuel for running `toks` against `s`: each token contributes at
most `|s| + 2` backtracking-depth steps. -/
def fuelB (toks : List Tok) (s : List Char) : Nat := (toks.length + 1) * (s.length + 3)

/-- Canonical single-position match attempt of a token list. -/
def matchRun (s : List Char) (toks : List Tok) (pos : Nat) :
    Option (Nat × List (Nat × Nat × Nat)) :=
  engine s (fuelB toks s) (MState.run toks pos [] [])

/-- Try the alternatives of a pattern in order at one position
(Python `|` semantics). -/
def tryAlts (s : List Char) (alts : List (List Tok)) (pos : Nat) :
    Option (Nat × List (Nat × Nat × Nat)) :=
  match alts with
  | [] => none
  | a :: rest =>
      match matchRun s a pos with
      | some r => some r
      | none => tryAlts s rest pos

/-- A match result: start, end, captures. -/
structure MRes where
  ms : Nat
  me : Nat
  caps : List (Nat × Nat × Nat)
deriving DecidableEq

/-- Scan positions left to right (`re.search` semantics: the leftmost
position at which some alternative matches wins). -/
def searchAux (s : List Char) (alts : List (List Tok)) : Nat → Nat → Option MRes
  | 0, _ => none
  | fuel + 1, pos =>
      match tryAlts s alts pos with
      | some r => some ⟨pos, r.1, r.2⟩
      | none => searchAux s alts fuel (pos + 1)

/-- Model of `re.search(pattern, s)`. -/
def reSearch (alts : List (List Tok)) (s : List Char) : Option MRes :=
  searchAux s alts (s.length + 1) 0

/-- Model of `re.finditer`: repeated leftmost non-overlapping matches,
advancing past each match (one further on an empty match). -/
def finditerAux (s : List Char) (toks : List Tok) : Nat → Nat → List MRes
  | 0, _ => []
  | fuel + 1, pos =>
      match searchAux s [toks] (s.length + 1 - pos) pos with
      | none => []
      | some m => m :: finditerAux s toks fuel (if m.ms < m.me then m.me else m.me + 1)

/-- All matches of a single-alternative pattern, in order. -/
def finditer (toks : List Tok) (s : List Char) : List MRes :=
  finditerAux s toks (s.length + 1) 0

/-- The substring captured by group `n`, if that group participated in the
match. -/
def capStr (s : List Char) (caps : List (Nat × Nat × Nat)) (n : Nat) :
    Option (List Char) :=
  match caps.find? (fun c => c.1 == n) with
  | some c => some ((s.drop c.2.1).take (c.2.2 - c.2.1))
  | none => none

/-- Python `match.group(n)`: `IndexError` when `n` exceeds the number of
groups in the pattern, `None` when the group did not participate. -/
def pyGroup (ng : Nat) (s : List Char) (caps : List (Nat × Nat × Nat)) (n : Nat) :
    Except String (Option String) :=
  if n ≤ ng then Except.ok ((capStr s caps n).map fun l => ⟨l⟩)
  else Except.error "IndexError"

/-- Python truthiness of an optional string: `None` and `""` are falsy. -/
def pyTruthy : Option String → Bool
  | none => false
  | some v => v != ""

/-- Python `match.group(1) or match.group(2)` (source line 401): `or`
short-circuits, so group 2 is accessed only when group 1 is falsy. -/
def groupOr (ng : Nat) (s : List Char) (caps : List (Nat × Nat × Nat)) :
    Except String (Option String) := do
  let g1 ← pyGroup ng s caps 1
  if pyTruthy g1 then pure g1 else pyGroup ng s caps 2

/-- A compiled pattern: alternatives plus the number of capture groups. -/
structure Pat where
  alts : List (List Tok)
  ng : Nat

/-- Shorthand for `\s{lo,}` (greedy). -/
def spcCls (lo : Nat) : Tok := Tok.cls isSpc lo none false

/-- The group `(\d{2}\.\d{2}\.\d{4})` as group `j`. -/
def dateGrp (j : Nat) : List Tok :=
  [Tok.openG j, Tok.cls isDigitC 2 (some 2) false, Tok.lit true ".".data,
   Tok.cls isDigitC 2 (some 2) false, Tok.lit true ".".data,
   Tok.cls isDigitC 4 (some 4) false, Tok.closeG j]

/-- Token list of `GOODS RECEIPT NOTE No\.\s*:\s*(\S+)`. -/
def grnNoToks : List Tok :=
  [Tok.lit true "GOODS RECEIPT NOTE No.".data, spcCls 0, Tok.lit true ":".data,
   spcCls 0, Tok.openG 1, Tok.cls isNotSpc 1 none false, Tok.closeG 1]

/-- Pattern `GOODS RECEIPT NOTE No\.\s*:\s*(\S+)` (IGNORECASE). -/
def grnNoPat : Pat := ⟨[grnNoToks], 1⟩

/-- Token list of `Date:\s*(\d{2}\.\d{2}\.\d{4})`. -/
def grnDateToks : List Tok :=
  [Tok.lit true "Date:".data, spcCls 0] ++ dateGrp 1

/-- Pattern `Date:\s*(\d{2}\.\d{2}\.\d{4})` (IGNORECASE). -/
def grnDatePat : Pat := ⟨[grnDateToks], 1⟩

/-- Token list of `Vendor invoice no\s*:\s*(\S+)`. -/
def vendorToks : List Tok :=
  [Tok.lit true "Vendor invoice no".data, spcCls 0, Tok.lit true ":".data,
   spcCls 0, Tok.openG 1, Tok.cls isNotSpc 1 none false, Tok.closeG 1]

/-- Pattern `Vendor invoice no\s*:\s*(\S+)` (IGNORECASE). -/
def vendorPat : Pat := ⟨[vendorToks], 1⟩

/-- Token list of `Consignee\s*:\s*([^\n]+)\n`. -/
def consToks : List Tok :=
  [Tok.lit true "Consignee".data, spcCls 0, Tok.lit true ":".data, spcCls 0,
   Tok.openG 1, Tok.cls (fun c => c != '\n') 1 none false, Tok.closeG 1,
   Tok.lit true "\n".data]

/-- Pattern `Consignee\s*:\s*([^\n]+)\n` (IGNORECASE). -/
def consPat : Pat := ⟨[consToks], 1⟩

/-- Token list of `PO Number\s*:\s*(\S+)`. -/
def poNoToks : List Tok :=
  [Tok.lit true "PO Number".data, spcCls 0, Tok.lit true ":".data,
   spcCls 0, Tok.openG 1, Tok.cls isNotSpc 1 none false, Tok.closeG 1]

/-- Pattern `PO Number\s*:\s*(\S+)` (IGNORECASE). -/
def poNoPat : Pat := ⟨[poNoToks], 1⟩

/-- Token list of the first PO-Date alternative
`PO Number.*?Date\s*:\s*(\d{2}\.\d{2}\.\d{4})`; `.` does not match a newline
(no DOTALL flag). -/
def poDateToks1 : List Tok :=
  [Tok.lit true "PO Number".data, Tok.cls (fun c => c != '\n') 0 none true,
   Tok.lit true "Date".data, spcCls 0, Tok.lit true ":".data, spcCls 0] ++ dateGrp 1

/-- Token list of the second PO-Date alternative
`(?<!\S)Date\s*:\s*(\d{2}\.\d{2}\.\d{4})`. -/
def poDateToks2 : List Tok :=
  [Tok.nlook isNotSpc, Tok.lit true "Date".data, spcCls 0, Tok.lit true ":".data,
   spcCls 0] ++ dateGrp 2

/-- Pattern
`PO Number.*?Date\s*:\s*(\d{2}\.\d{2}\.\d{4})|(?<!\S)Date\s*:\s*(\d{2}\.\d{2}\.\d{4})`
(IGNORECASE). -/
def poDatePat : Pat := ⟨[poDateToks1, poDateToks2], 2⟩

/-- Token list of `Truck/ Lorry/ Carrier No:\s*(\S+)`. -/
def truckToks : List Tok :=
  [Tok.lit true "Truck/ Lorry/ Carrier No:".data, spcCls 0, Tok.openG 1,
   Tok.cls isNotSpc 1 none false, Tok.closeG 1]

/-- Pattern `Truck/ Lorry/ Carrier No:\s*(\S+)` (IGNORECASE). -/
def truckPat : Pat := ⟨[truckToks], 1⟩

/-- Table-marker pattern `S No\s+Article` (IGNORECASE). -/
def tableStartToks : List Tok :=
  [Tok.lit true "S No".data, Tok.cls isSpc 1 none false, Tok.lit true "Article".data]

/-- Item-row pattern (compiled without flags, source line 411):
`(\d+)\s+(\d+)\s+([\w\s\.\-%#]+?)\s+(\d{13})\s+(\w+)\s+(\d+)\s+(\d+)\s+(\d+)\s+([\d\.]+)\b`. -/
def itemToks : List Tok :=
  [Tok.openG 1, Tok.cls isDigitC 1 none false, Tok.closeG 1, Tok.cls isSpc 1 none false,
   Tok.openG 2, Tok.cls isDigitC 1 none false, Tok.closeG 2, Tok.cls isSpc 1 none false,
   Tok.openG 3,
   Tok.cls (fun c => isWordC c || isSpc c || c == '.' || c == '-' || c == '%' || c == '#')
     1 none true,
   Tok.closeG 3, Tok.cls isSpc 1 none false,
   Tok.openG 4, Tok.cls isDigitC 13 (some 13) false, Tok.closeG 4, Tok.cls isSpc 1 none false,
   Tok.openG 5, Tok.cls isWordC 1 none false, Tok.closeG 5, Tok.cls isSpc 1 none false,
   Tok.openG 6, Tok.cls isDigitC 1 none false, Tok.closeG 6, Tok.cls isSpc 1 none false,
   Tok.openG 7, Tok.cls isDigitC 1 none false, Tok.closeG 7, Tok.cls isSpc 1 none false,
   Tok.openG 8, Tok.cls isDigitC 1 none false, Tok.closeG 8, Tok.cls isSpc 1 none false,
   Tok.openG 9, Tok.cls (fun c => isDigitC c || c == '.') 1 none false, Tok.closeG 9,
   Tok.wordB]

/-- Python `str.strip()` on ASCII text. -/
def pyStrip (l : List Char) : List Char :=
  ((l.dropWhile isSpc).reverse.dropWhile isSpc).reverse

/-- Python `re.sub(r'\s+', ' ', l)`: every maximal whitespace run becomes one
space.  The Boolean argument records whether the previous character was part
of a run already replaced. -/
def collapseWsAux : Bool → List Char → List Char
  | _, [] => []
  | inRun, c :: cs =>
      if isSpc c then
        if inRun then collapseWsAux true cs else ' ' :: collapseWsAux true cs
      else c :: collapseWsAux false cs

/-- Python `re.sub(r'\s+', ' ', l)`. -/
def collapseWs (l : List Char) : List Char := collapseWsAux false l

/-- Python `str.replace(old, new)` for a single-character `old` replaced by a
space. -/
def replaceCh (old : Char) : List Char → List Char
  | [] => []
  | c :: cs => (if c == old then ' ' else c) :: replaceCh old cs

/-- Python `str.replace('  ', ' ')`: one left-to-right non-overlapping pass. -/
def replaceDbl : List Char → List Char
  | ' ' :: ' ' :: cs => ' ' :: replaceDbl cs
  | c :: cs => c :: replaceDbl cs
  | [] => []

/-- `clean_text` (source line 364):
`text.strip().replace('\n', ' ').replace('\r', ' ').replace('  ', ' ')`. -/
def clean_text (text : String) : String :=
  ⟨replaceDbl (replaceCh '\r' (replaceCh '\n' (pyStrip text.data)))⟩

/-- The metadata record: the Python dict of source lines 382-386, as an
insertion-ordered association list from field name to optional value. -/
abbrev Mdict := List (String × Option String)

/-- The initial metadata dict (source lines 382-386). -/
def initMd (source_filename : String) : Mdict :=
  [("GRN No", none), ("GRN Date", none), ("Vendor Invoice No", none), ("PO No", none),
   ("PO Date", none), ("Consignee Location", none), ("Truck No", none), ("Challan No", none),
   ("Source File", some source_filename)]

/-- Python dict assignment `md[k] = v`: an existing key keeps its position. -/
def dictSet (md : Mdict) (k : String) (v : Option String) : Mdict :=
  if md.any (fun p => p.1 == k) then
    md.map (fun p => if p.1 == k then (k, v) else p)
  else md ++ [(k, v)]

/-- Python dict read `md[k]` (total here; every key read in the source is
present in the initial dict). -/
def pyGet (md : Mdict) (k : String) : Option String :=
  match md.find? (fun p => p.1 == k) with
  | some p => p.2
  | none => none

/-- Lookup distinguishing a missing key (`none`) from a `None` value
(`some none`). -/
def mdLookup (md : Mdict) (k : String) : Option (Option String) :=
  (md.find? (fun p => p.1 == k)).map (fun p => p.2)

/-- One iteration of the pattern loop (source lines 398-401): search, and on
a match assign `match.group(1) or match.group(2)` to the key. -/
def applyPattern (md : Mdict) (key : String) (pat : Pat) (s : List Char) :
    Except String Mdict :=
  match reSearch pat.alts s with
  | none => Except.ok md
  | some m => do
      let v ← groupOr pat.ng s m.caps
      pure (dictSet md key v)

/-- An item record (source lines 415-425). -/
structure Item where
  sNo : String
  article : String
  itemDescription : String
  eanNumber : String
  uom : String
  challanQty : String
  receivedQty : String
  acceptedQty : String
  mrp : String
deriving DecidableEq

/-- Build one item from a row match; the description is stripped and
whitespace-collapsed (source line 414). -/
def mkItem (tbl : List Char) (m : MRes) : Item :=
  let g : Nat → List Char := fun n => (capStr tbl m.caps n).getD []
  { sNo := ⟨g 1⟩, article := ⟨g 2⟩,
    itemDescription := ⟨collapseWs (pyStrip (g 3))⟩,
    eanNumber := ⟨g 4⟩, uom := ⟨g 5⟩, challanQty := ⟨g 6⟩,
    receivedQty := ⟨g 7⟩, acceptedQty := ⟨g 8⟩, mrp := ⟨g 9⟩ }

/-- The item-table extraction (source lines 406-425): find the table marker,
then run the row pattern repeatedly over the text from the marker on. -/
def extractItems (s : List Char) : List Item :=
  match reSearch [tableStartToks] s with
  | none => []
  | some m => (finditer itemToks (s.drop m.ms)).map (mkItem (s.drop m.ms))

/-- `extract_grn_data` (source lines 380-427).  The `Except` layer models
Python exceptions (`IndexError` from an out-of-range group access); the
pattern loop runs in the insertion order of the `patterns` dict. -/
def extract_grn_data (text : String) (source_filename : String) :
    Except String (Mdict × List Item) := do
  let s := text.data
  let md0 := initMd source_filename
  let md1 ← applyPattern md0 "GRN No" grnNoPat s
  let md2 ← applyPattern md1 "GRN Date" grnDatePat s
  let md3 ← applyPattern md2 "Vendor Invoice No" vendorPat s
  let md4 ← applyPattern md3 "Consignee Location" consPat s
  let md5 ← applyPattern md4 "PO No" poNoPat s
  let md6 ← applyPattern md5 "PO Date" poDatePat s
  let md7 ← applyPattern md6 "Truck No" truckPat s
  let md8 :=
    if pyTruthy (pyGet md7 "Vendor Invoice No") then
      dictSet md7 "Challan No" (pyGet md7 "Vendor Invoice No")
    else md7
  pure (md8, extractItems s)

/-- The per-document pipeline as the source's processing loops run it
(lines 591-592, 708-709): the externally extracted PDF text is passed to
`extract_grn_data` directly. -/
def process_document (text : String) (fname : String) :
    Except String (Mdict × List Item) :=
  extract_grn_data text fname

/-- The per-document pipeline as the specification describes it: the Text
Normalizer (`clean_text`) runs before field and table extraction. -/
def process_document_spec (text : String) (fname : String) :
    Except String (Mdict × List Item) :=
  extract_grn_data (clean_text text) fname

/-- Does a (possibly case-folded) occurrence of the literal `l` start at any
position of the text?  Decidable form of "the anchor appears somewhere". -/
def hasLitCI (l : List Char) : List Char → Bool
  | [] => litAt true l []
  | c :: cs => litAt true l (c :: cs) || hasLitCI l cs

/-!  Soundness (inversion) lemmas for one engine step.  Each lemma takes a
successful run whose token list starts with a given token and produces the
successful run of the remaining tokens, together with the facts the token
established. -/

theorem sound_nil {s : List Char} {f pos pend caps r}
    (h : engine s f (MState.run [] pos pend caps) = some r) : r = (pos, caps) := by
  match f with
  | 0 => simp [engine] at h
  | f + 1 => simp [engine] at h; exact h.symm

theorem sound_lit {s : List Char} {f ci l rest pos pend caps r}
    (h : engine s f (MState.run (Tok.lit ci l :: rest) pos pend caps) = some r) :
    litAt ci l (s.drop pos) = true ∧
      ∃ f', engine s f' (MState.run rest (pos + l.length) pend caps) = some r := by
  match f with
  | 0 => simp [engine] at h
  | f + 1 =>
      rw [engine.eq_def] at h; simp only [] at h
      by_cases hl : litAt ci l (s.drop pos) = true
      · simp only [hl, if_true] at h; exact ⟨hl, f, h⟩
      · simp only [Bool.not_eq_true] at hl; simp [hl] at h

theorem sound_cnts {s : List Char} :
    ∀ {f : Nat} {rest ks pos pend caps r},
    engine s f (MState.cnts rest ks pos pend caps) = some r →
    ∃ k, k ∈ ks ∧ ∃ f', engine s f' (MState.run rest (pos + k) pend caps) = some r := by
  intro f
  induction f with
  | zero => intro rest ks pos pend caps r h; simp [engine] at h
  | succ f ih =>
      intro rest ks pos pend caps r h
      rw [engine.eq_def] at h; simp only [] at h
      match ks with
      | [] => simp at h
      | k :: ks2 =>
          simp only at h
          cases hm : engine s f (MState.run rest (pos + k) pend caps) with
          | some r' =>
              rw [hm] at h
              simp only [Option.some.injEq] at h
              exact ⟨k, List.mem_cons_self _ _, f, by rw [hm, h]⟩
          | none =>
              rw [hm] at h
              obtain ⟨k', hk', f', hf'⟩ := ih h
              exact ⟨k', List.mem_cons_of_mem _ hk', f', hf'⟩

theorem mem_clsCounts {lo m k : Nat} {lzy : Bool} (hlm : lo ≤ m) :
    k ∈ clsCounts lo m lzy ↔ (lo ≤ k ∧ k ≤ m) := by
  unfold clsCounts
  cases lzy <;> simp [List.mem_range'_1] <;> omega

theorem sound_cls {s : List Char} {f p lo hi lzy rest pos pend caps r}
    (h : engine s f (MState.run (Tok.cls p lo hi lzy :: rest) pos pend caps) = some r) :
    ∃ k, lo ≤ k ∧ k ≤ clsBound p hi s pos ∧
      ∃ f', engine s f' (MState.run rest (pos + k) pend caps) = some r := by
  match f with
  | 0 => simp [engine] at h
  | f + 1 =>
      rw [engine.eq_def] at h; simp only [] at h
      by_cases hm : clsBound p hi s pos < lo
      · simp only [hm, if_true] at h; exact Option.noConfusion h
      · simp only [hm, if_false] at h
        obtain ⟨k, hk, f', hf'⟩ := sound_cnts h
        rw [mem_clsCounts (by omega)] at hk
        exact ⟨k, hk.1, hk.2, f', hf'⟩

theorem sound_open {s : List Char} {f n rest pos pend caps r}
    (h : engine s f (MState.run (Tok.openG n :: rest) pos pend caps) = some r) :
    ∃ f', engine s f' (MState.run rest pos ((n, pos) :: pend) caps) = some r := by
  match f with
  | 0 => simp [engine] at h
  | f + 1 => rw [engine.eq_def] at h; simp only [] at h; exact ⟨f, h⟩

theorem sound_close {s : List Char} {f n rest pos pend caps r}
    (h : engine s f (MState.run (Tok.closeG n :: rest) pos pend caps) = some r) :
    ∃ q f', pend.find? (fun q => q.1 == n) = some q ∧
      engine s f' (MState.run rest pos pend ((n, q.2, pos) :: caps)) = some r := by
  match f with
  | 0 => simp [engine] at h
  | f + 1 =>
      rw [engine.eq_def] at h; simp only [] at h
      cases hq : pend.find? (fun q => q.1 == n) with
      | some q => rw [hq] at h; exact ⟨q, f, rfl, h⟩
      | none => rw [hq] at h; simp at h

theorem sound_nlook {s : List Char} {f p rest pos pend caps r}
    (h : engine s f (MState.run (Tok.nlook p :: rest) pos pend caps) = some r) :
    ∃ f', engine s f' (MState.run rest pos pend caps) = some r := by
  match f with
  | 0 => simp [engine] at h
  | f + 1 =>
      rw [engine.eq_def] at h; simp only [] at h
      cases hq : (if pos = 0 then none else s[pos - 1]?) with
      | some c =>
          rw [hq] at h
          by_cases hp : p c = true
          · simp [hp] at h
          · simp only [Bool.not_eq_true] at hp; simp only [hp, if_false] at h; exact ⟨f, h⟩
      | none => rw [hq] at h; exact ⟨f, h⟩

theorem sound_wordB {s : List Char} {f rest pos pend caps r}
    (h : engine s f (MState.run (Tok.wordB :: rest) pos pend caps) = some r) :
    ∃ f', engine s f' (MState.run rest pos pend caps) = some r := by
  match f with
  | 0 => simp [engine] at h
  | f + 1 =>
      rw [engine.eq_def] at h; simp only [] at h
      by_cases hb : atWordB s pos = true
      · simp only [hb, if_true] at h; exact ⟨f, h⟩
      · simp only [Bool.not_eq_true] at hb; simp [hb] at h

/-- Tokens that neither open nor close a capture group. -/
def plainTok : Tok → Bool
  | Tok.lit _ _ => true
  | Tok.cls _ _ _ _ => true
  | Tok.nlook _ => true
  | Tok.wordB => true
  | _ => false

/-- Running a prefix of group-free tokens only advances the position: the
pending-group and capture state reach the remaining tokens unchanged. -/
theorem sound_skip {s : List Char} :
    ∀ (toks1 rest : List Tok) {f pos pend caps r},
    toks1.all plainTok = true →
    engine s f (MState.run (toks1 ++ rest) pos pend caps) = some r →
    ∃ pos' f', engine s f' (MState.run rest pos' pend caps) = some r := by
  intro toks1
  induction toks1 with
  | nil => intro rest f pos pend caps r _ h; exact ⟨pos, f, h⟩
  | cons t ts ih =>
      intro rest f pos pend caps r hall h
      simp only [List.all_cons, Bool.and_eq_true] at hall
      rw [List.cons_append] at h
      cases t with
      | lit ci l => obtain ⟨-, f', h'⟩ := sound_lit h; exact ih _ hall.2 h'
      | cls p lo hi lzy => obtain ⟨k, -, -, f', h'⟩ := sound_cls h; exact ih _ hall.2 h'
      | openG n => simp [plainTok] at hall
      | closeG n => simp [plainTok] at hall
      | nlook p => obtain ⟨f', h'⟩ := sound_nlook h; exact ih _ hall.2 h'
      | wordB => obtain ⟨f', h'⟩ := sound_wordB h; exact ih _ hall.2 h'

/-- A successful run over group-free tokens leaves the captures unchanged. -/
theorem caps_stable_aux {s : List Char} :
    ∀ f : Nat,
      (∀ toks pos pend caps en capsF, toks.all plainTok = true →
        engine s f (MState.run toks pos pend caps) = some (en, capsF) → capsF = caps) ∧
      (∀ rest ks pos pend caps en capsF, rest.all plainTok = true →
        engine s f (MState.cnts rest ks pos pend caps) = some (en, capsF) → capsF = caps) := by
  intro f
  induction f with
  | zero =>
      constructor
      · intro toks pos pend caps en capsF _ h; simp [engine] at h
      · intro rest ks pos pend caps en capsF _ h; simp [engine] at h
  | succ f ih =>
      constructor
      · intro toks pos pend caps en capsF hall h
        cases toks with
        | nil =>
            injection (sound_nil h) with h1 h2
        | cons t ts =>
            simp only [List.all_cons, Bool.and_eq_true] at hall
            rw [engine.eq_def] at h; simp only [] at h
            cases t with
            | lit ci l =>
                by_cases hl : litAt ci l (s.drop pos) = true
                · simp only [hl, if_true] at h; exact ih.1 _ _ _ _ _ _ hall.2 h
                · simp only [Bool.not_eq_true] at hl; simp [hl] at h
            | cls p lo hi lzy =>
                by_cases hm : clsBound p hi s pos < lo
                · simp only [hm, if_true] at h; exact Option.noConfusion h
                · simp only [hm, if_false] at h; exact ih.2 _ _ _ _ _ _ _ hall.2 h
            | openG n => simp [plainTok] at hall
            | closeG n => simp [plainTok] at hall
            | nlook p =>
                cases hq : (if pos = 0 then none else s[pos - 1]?) with
                | some c =>
                    rw [hq] at h
                    by_cases hp : p c = true
                    · simp [hp] at h
                    · simp only [Bool.not_eq_true] at hp; simp only [hp, if_false] at h
                      exact ih.1 _ _ _ _ _ _ hall.2 h
                | none => rw [hq] at h; exact ih.1 _ _ _ _ _ _ hall.2 h
            | wordB =>
                by_cases hb : atWordB s pos = true
                · simp only [hb, if_true] at h; exact ih.1 _ _ _ _ _ _ hall.2 h
                · simp only [Bool.not_eq_true] at hb; simp [hb] at h
      · intro rest ks pos pend caps en capsF hall h
        cases ks with
        | nil =>
            rw [engine.eq_def] at h; simp only [] at h
            exact Option.noConfusion h
        | cons k ks2 =>
            rw [engine.eq_def] at h; simp only [] at h
            cases hm : engine s f (MState.run rest (pos + k) pend caps) with
            | some r =>
                rw [hm] at h
                simp only [Option.some.injEq] at h
                exact ih.1 _ _ _ _ _ _ hall (by rw [hm, h])
            | none => rw [hm] at h; exact ih.2 _ _ _ _ _ _ _ hall h

/-- Running `(G capture-class G') post` with group-free `post`: the final
captures are exactly the original ones plus one capture of group `j`
spanning `k` admissible class characters. -/
theorem sound_capCls {s : List Char} {j : Nat} {p lo hi lzy post f pos pend caps en capsF}
    (hpost : post.all plainTok = true)
    (h : engine s f (MState.run
          (Tok.openG j :: Tok.cls p lo hi lzy :: Tok.closeG j :: post)
          pos pend caps) = some (en, capsF)) :
    ∃ k, lo ≤ k ∧ k ≤ clsBound p hi s pos ∧ capsF = (j, pos, pos + k) :: caps := by
  obtain ⟨f1, h1⟩ := sound_open h
  obtain ⟨k, hk1, hk2, f2, h2⟩ := sound_cls h1
  obtain ⟨q, f3, hq, h3⟩ := sound_close h2
  rw [List.find?_cons_of_pos _ (by simp)] at hq
  cases hq
  have hst := (caps_stable_aux f3).1 _ _ _ _ _ _ hpost h3
  exact ⟨k, hk1, hk2, hst⟩

theorem countWhile_le_length (p : Char → Bool) : ∀ l : List Char, countWhile p l ≤ l.length := by
  intro l
  induction l with
  | nil => simp [countWhile]
  | cons c cs ih => by_cases h : p c = true <;> simp [countWhile, h] <;> omega

/-- Running the date group `(\d{2}\.\d{2}\.\d{4})` consumes exactly ten
characters and records one ten-character capture. -/
theorem sound_capDate {s : List Char} {j f pos pend caps en capsF}
    (h : engine s f (MState.run (dateGrp j) pos pend caps) = some (en, capsF)) :
    capsF = (j, pos, pos + 10) :: caps ∧ 2 ≤ countWhile isDigitC (s.drop pos) := by
  rw [dateGrp] at h
  obtain ⟨f1, h1⟩ := sound_open h
  obtain ⟨k1, hk1a, hk1b, f2, h2⟩ := sound_cls h1
  have hcb1 : clsBound isDigitC (some 2) s pos =
      min (countWhile isDigitC (s.drop pos)) 2 := rfl
  have hk1 : k1 = 2 := by rw [hcb1] at hk1b; omega
  subst hk1
  have hcw : 2 ≤ countWhile isDigitC (s.drop pos) := by rw [hcb1] at hk1b; omega
  obtain ⟨hl2, f3, h3⟩ := sound_lit h2
  rw [show pos + 2 + (".".data).length = pos + 3 from rfl] at h3
  obtain ⟨k2, hk2a, hk2b, f4, h4⟩ := sound_cls h3
  have hk2 : k2 = 2 := by
    have hcb : clsBound isDigitC (some 2) s (pos + 3) =
        min (countWhile isDigitC (s.drop (pos + 3))) 2 := rfl
    rw [hcb] at hk2b; omega
  subst hk2
  obtain ⟨hl4, f5, h5⟩ := sound_lit h4
  rw [show pos + 3 + 2 + (".".data).length = pos + 6 from rfl] at h5
  obtain ⟨k3, hk3a, hk3b, f6, h6⟩ := sound_cls h5
  have hk3 : k3 = 4 := by
    have hcb : clsBound isDigitC (some 4) s (pos + 6) =
        min (countWhile isDigitC (s.drop (pos + 6))) 4 := rfl
    rw [hcb] at hk3b; omega
  subst hk3
  obtain ⟨q, f7, hq, h7⟩ := sound_close h6
  rw [List.find?_cons_of_pos _ (by simp)] at hq
  cases hq
  injection (sound_nil h7) with h8a h8b
  exact ⟨h8b, hcw⟩

theorem litAt_true_len {ci : Bool} :
    ∀ {l t : List Char}, litAt ci l t = true → l.length ≤ t.length := by
  intro l
  induction l with
  | nil => intro t h; simp
  | cons a as ih =>
      intro t h
      cases t with
      | nil => simp [litAt] at h
      | cons b bs =>
          simp only [litAt, Bool.and_eq_true] at h
          have := ih h.2
          simp only [List.length_cons]
          omega

/-- A (case-insensitive) match of the literal `"\n"` forces an actual newline
character in the text. -/
theorem litAt_newline {t : List Char} (h : litAt true ['\n'] t = true) : '\n' ∈ t := by
  cases t with
  | nil => simp [litAt] at h
  | cons b bs =>
      simp only [litAt, Bool.and_eq_true] at h
      have hc := h.1
      simp only [charEq, Bool.or_eq_true, Bool.and_eq_true, beq_iff_eq] at hc
      have hb : b = '\n' := by
        rcases hc with hc | hc
        · exact hc.symm
        · have hcf : caseFold '\n' = '\n' := by decide
          rw [hcf] at hc
          exact hc.2.symm
      rw [hb]
      exact List.mem_cons_self _ _

theorem hasLitCI_false_all {l : List Char} :
    ∀ {t : List Char}, hasLitCI l t = false → ∀ i, litAt true l (t.drop i) = false := by
  intro t
  induction t with
  | nil =>
      intro h i
      rw [List.drop_nil]
      exact h
  | cons c cs ih =>
      intro h i
      rw [hasLitCI] at h
      rcases Bool.or_eq_false_iff.mp h with ⟨h1, h2⟩
      cases i with
      | zero => exact h1
      | succ i => exact ih h2 i

theorem searchAux_some {s : List Char} {alts} :
    ∀ {fuel pos m}, searchAux s alts fuel pos = some m →
      tryAlts s alts m.ms = some (m.me, m.caps) ∧ pos ≤ m.ms := by
  intro fuel
  induction fuel with
  | zero => intro pos m h; simp [searchAux] at h
  | succ fuel ih =>
      intro pos m h
      rw [searchAux] at h
      cases ht : tryAlts s alts pos with
      | some r =>
          rw [ht] at h
          simp only [Option.some.injEq] at h
          subst h
          exact ⟨ht, le_refl _⟩
      | none =>
          rw [ht] at h
          obtain ⟨h1, h2⟩ := ih h
          exact ⟨h1, by omega⟩

theorem searchAux_none_of {s : List Char} {alts}
    (hall : ∀ pos, tryAlts s alts pos = none) :
    ∀ fuel pos, searchAux s alts fuel pos = none := by
  intro fuel
  induction fuel with
  | zero => intro pos; rfl
  | succ fuel ih =>
      intro pos
      rw [searchAux, hall pos]
      exact ih (pos + 1)

theorem searchAux_first {s : List Char} {alts} {i0 en caps}
    (hbefore : ∀ j, j < i0 → tryAlts s alts j = none)
    (hat : tryAlts s alts i0 = some (en, caps)) :
    ∀ fuel pos, pos ≤ i0 → i0 < pos + fuel →
      searchAux s alts fuel pos = some ⟨i0, en, caps⟩ := by
  intro fuel
  induction fuel with
  | zero => intro pos h1 h2; exact absurd h2 (by omega)
  | succ fuel ih =>
      intro pos h1 h2
      rcases Nat.eq_or_lt_of_le h1 with rfl | hlt
      · rw [searchAux, hat]
      · rw [searchAux, hbefore pos hlt]
        exact ih (pos + 1) hlt (by omega)

theorem tryAlts_single {s : List Char} {toks pos} :
    tryAlts s [toks] pos = matchRun s toks pos := by
  unfold tryAlts
  cases h : matchRun s toks pos <;> simp [h, tryAlts]

theorem tryAlts_two {s : List Char} {a1 a2 : List Tok} {pos r}
    (h : tryAlts s [a1, a2] pos = some r) :
    matchRun s a1 pos = some r ∨
      (matchRun s a1 pos = none ∧ matchRun s a2 pos = some r) := by
  unfold tryAlts at h
  cases h1 : matchRun s a1 pos with
  | some r' =>
      rw [h1] at h
      simp only [] at h
      exact Or.inl h
  | none =>
      rw [h1] at h
      rw [tryAlts_single] at h
      exact Or.inr ⟨rfl, h⟩

theorem tryAlts_two_of_none {s : List Char} {a1 a2 : List Tok} {pos}
    (h1 : matchRun s a1 pos = none) :
    tryAlts s [a1, a2] pos = matchRun s a2 pos := by
  unfold tryAlts
  rw [h1]
  cases h : matchRun s a2 pos <;> simp [h, tryAlts]

/-- A pattern of shape `pre (p{1,}?) post` with group-free `pre`/`post`
produces, on any match, exactly one capture of at least one class
character. -/
theorem caps_of_capClsPat {s : List Char} (pre post : List Tok) {p : Char → Bool}
    {lzy : Bool} {ms me : Nat} {caps}
    (hpre : pre.all plainTok = true) (hpost : post.all plainTok = true)
    (h : matchRun s
        (pre ++ Tok.openG 1 :: Tok.cls p 1 none lzy :: Tok.closeG 1 :: post) ms
        = some (me, caps)) :
    ∃ st k, 1 ≤ k ∧ k ≤ countWhile p (s.drop st) ∧ caps = [(1, st, st + k)] := by
  unfold matchRun at h
  obtain ⟨pos', f', h2⟩ := sound_skip _ _ hpre h
  obtain ⟨k, hk1, hk2, hcaps⟩ := sound_capCls hpost h2
  exact ⟨pos', k, hk1, by simpa [clsBound] using hk2, hcaps⟩

theorem caps_of_grnNo {s : List Char} {m : MRes}
    (h : reSearch grnNoPat.alts s = some m) :
    ∃ st k, 1 ≤ k ∧ k ≤ countWhile isNotSpc (s.drop st) ∧ m.caps = [(1, st, st + k)] := by
  unfold reSearch at h
  have ht := (searchAux_some h).1
  rw [show grnNoPat.alts = [grnNoToks] from rfl, tryAlts_single] at ht
  exact caps_of_capClsPat [Tok.lit true "GOODS RECEIPT NOTE No.".data, spcCls 0,
    Tok.lit true ":".data, spcCls 0] [] rfl rfl ht

theorem caps_of_vendor {s : List Char} {m : MRes}
    (h : reSearch vendorPat.alts s = some m) :
    ∃ st k, 1 ≤ k ∧ k ≤ countWhile isNotSpc (s.drop st) ∧ m.caps = [(1, st, st + k)] := by
  unfold reSearch at h
  have ht := (searchAux_some h).1
  rw [show vendorPat.alts = [vendorToks] from rfl, tryAlts_single] at ht
  exact caps_of_capClsPat [Tok.lit true "Vendor invoice no".data, spcCls 0,
    Tok.lit true ":".data, spcCls 0] [] rfl rfl ht

theorem caps_of_poNo {s : List Char} {m : MRes}
    (h : reSearch poNoPat.alts s = some m) :
    ∃ st k, 1 ≤ k ∧ k ≤ countWhile isNotSpc (s.drop st) ∧ m.caps = [(1, st, st + k)] := by
  unfold reSearch at h
  have ht := (searchAux_some h).1
  rw [show poNoPat.alts = [poNoToks] from rfl, tryAlts_single] at ht
  exact caps_of_capClsPat [Tok.lit true "PO Number".data, spcCls 0,
    Tok.lit true ":".data, spcCls 0] [] rfl rfl ht

theorem caps_of_truck {s : List Char} {m : MRes}
    (h : reSearch truckPat.alts s = some m) :
    ∃ st k, 1 ≤ k ∧ k ≤ countWhile isNotSpc (s.drop st) ∧ m.caps = [(1, st, st + k)] := by
  unfold reSearch at h
  have ht := (searchAux_some h).1
  rw [show truckPat.alts = [truckToks] from rfl, tryAlts_single] at ht
  exact caps_of_capClsPat [Tok.lit true "Truck/ Lorry/ Carrier No:".data, spcCls 0]
    [] rfl rfl ht

theorem caps_of_cons {s : List Char} {m : MRes}
    (h : reSearch consPat.alts s = some m) :
    ∃ st k, 1 ≤ k ∧ k ≤ countWhile (fun c => c != '\n') (s.drop st) ∧
      m.caps = [(1, st, st + k)] := by
  unfold reSearch at h
  have ht := (searchAux_some h).1
  rw [show consPat.alts = [consToks] from rfl, tryAlts_single] at ht
  exact caps_of_capClsPat [Tok.lit true "Consignee".data, spcCls 0,
    Tok.lit true ":".data, spcCls 0] [Tok.lit true "\n".data] rfl rfl ht

theorem caps_of_grnDate {s : List Char} {m : MRes}
    (h : reSearch grnDatePat.alts s = some m) :
    ∃ st, m.caps = [(1, st, st + 10)] ∧ 2 ≤ countWhile isDigitC (s.drop st) := by
  unfold reSearch at h
  have ht := (searchAux_some h).1
  rw [show grnDatePat.alts = [grnDateToks] from rfl, tryAlts_single] at ht
  unfold matchRun at ht
  rw [show grnDateToks = [Tok.lit true "Date:".data, spcCls 0] ++ dateGrp 1 from rfl] at ht
  obtain ⟨pos', f', h2⟩ :=
    sound_skip [Tok.lit true "Date:".data, spcCls 0] (dateGrp 1) rfl ht
  obtain ⟨hcaps, hcw⟩ := sound_capDate h2
  exact ⟨pos', hcaps, hcw⟩

theorem take_ne_nil {l : List Char} {k : Nat} (hk : 1 ≤ k) (hl : l ≠ []) :
    l.take k ≠ [] := by
  cases l with
  | nil => exact absurd rfl hl
  | cons c cs =>
      cases k with
      | zero => omega
      | succ k => simp

theorem countWhile_pos_ne_nil {p : Char → Bool} {l : List Char}
    (h : 1 ≤ countWhile p l) : l ≠ [] := by
  intro he
  rw [he] at h
  simp [countWhile] at h

theorem exbind_ok {α β : Type} {a : α} {f : α → Except String β} :
    (Except.ok a : Except String α) >>= f = f a := rfl

/-- A single capture of at least one character makes
`match.group(1) or match.group(2)` return the non-empty group 1 without ever
touching group 2. -/
theorem groupOr_of_pos {s : List Char} {st k : Nat}
    (hk : 1 ≤ k) (hne : s.drop st ≠ []) :
    ∃ v : String, v ≠ "" ∧ groupOr 1 s [(1, st, st + k)] = Except.ok (some v) := by
  have hv : (s.drop st).take k ≠ [] := take_ne_nil hk hne
  refine ⟨⟨(s.drop st).take k⟩, ?_, ?_⟩
  · intro hcon
    apply hv
    have : ((⟨(s.drop st).take k⟩ : String)).data = ("" : String).data := by rw [hcon]
    simpa using this
  · have hcap : capStr s [(1, st, st + k)] 1 = some ((s.drop st).take k) := by
      unfold capStr
      simp [List.find?, Nat.add_sub_cancel_left]
    have htr : pyTruthy (some (⟨(s.drop st).take k⟩ : String)) = true := by
      simp only [pyTruthy, bne_iff_ne, ne_eq, decide_eq_true_eq]
      intro hcon
      apply hv
      have h2 : ((⟨(s.drop st).take k⟩ : String)).data = ("" : String).data := by rw [hcon]
      simpa using h2
    unfold groupOr pyGroup
    rw [hcap]
    simp only [if_pos (by omega : (1 : Nat) ≤ 1), Option.map_some', exbind_ok]
    rw [if_pos htr]
    rfl

theorem groupOr_two_ok (s : List Char) (caps : List (Nat × Nat × Nat)) :
    ∃ g, groupOr 2 s caps = Except.ok g := by
  unfold groupOr pyGroup
  simp only [if_pos (by omega : (1 : Nat) ≤ 2), if_pos (by omega : (2 : Nat) ≤ 2), exbind_ok]
  by_cases ht : pyTruthy ((capStr s caps 1).map fun l => (⟨l⟩ : String)) = true
  · rw [if_pos ht]; exact ⟨_, rfl⟩
  · rw [if_neg (by simpa using ht)]; exact ⟨_, rfl⟩

/-- The value the pattern loop body computes for one field: `None` when the
search fails, otherwise `match.group(1) or match.group(2)`. -/
def fieldValOf (pat : Pat) (s : List Char) : Except String (Option String) :=
  match reSearch pat.alts s with
  | none => Except.ok none
  | some m => groupOr pat.ng s m.caps

/-- Any single-group pattern whose matches always carry one non-degenerate
group-1 capture has a loop body that never raises and produces either `None`
or a non-empty string. -/
theorem fieldValOf_single_ok {pat : Pat} {s : List Char}
    (hng : pat.ng = 1)
    (hcaps : ∀ m : MRes, reSearch pat.alts s = some m →
      ∃ st k, 1 ≤ k ∧ (s.drop st) ≠ [] ∧ m.caps = [(1, st, st + k)]) :
    ∃ g, fieldValOf pat s = Except.ok g ∧ (g = none ∨ ∃ v, v ≠ "" ∧ g = some v) := by
  unfold fieldValOf
  cases hr : reSearch pat.alts s with
  | none => exact ⟨none, rfl, Or.inl rfl⟩
  | some m =>
      obtain ⟨st, k, hk, hne, hcs⟩ := hcaps m hr
      obtain ⟨v, hv, hg⟩ := groupOr_of_pos hk hne
      simp only []
      rw [hng, hcs]
      exact ⟨some v, hg, Or.inr ⟨v, hv, rfl⟩⟩

theorem fieldValOf_grnNo (s : List Char) :
    ∃ g, fieldValOf grnNoPat s = Except.ok g ∧ (g = none ∨ ∃ v, v ≠ "" ∧ g = some v) := by
  refine fieldValOf_single_ok rfl ?_
  intro m hm
  obtain ⟨st, k, hk, hcw, hcs⟩ := caps_of_grnNo hm
  exact ⟨st, k, hk, countWhile_pos_ne_nil (le_trans hk hcw), hcs⟩

theorem fieldValOf_grnDate (s : List Char) :
    ∃ g, fieldValOf grnDatePat s = Except.ok g ∧ (g = none ∨ ∃ v, v ≠ "" ∧ g = some v) := by
  refine fieldValOf_single_ok rfl ?_
  intro m hm
  obtain ⟨st, hcs, hcw⟩ := caps_of_grnDate hm
  have h1 : 1 ≤ countWhile isDigitC (s.drop st) := by omega
  exact ⟨st, 10, by omega, countWhile_pos_ne_nil h1, hcs⟩

theorem fieldValOf_vendor (s : List Char) :
    ∃ g, fieldValOf vendorPat s = Except.ok g ∧ (g = none ∨ ∃ v, v ≠ "" ∧ g = some v) := by
  refine fieldValOf_single_ok rfl ?_
  intro m hm
  obtain ⟨st, k, hk, hcw, hcs⟩ := caps_of_vendor hm
  exact ⟨st, k, hk, countWhile_pos_ne_nil (le_trans hk hcw), hcs⟩

theorem fieldValOf_cons (s : List Char) :
    ∃ g, fieldValOf consPat s = Except.ok g ∧ (g = none ∨ ∃ v, v ≠ "" ∧ g = some v) := by
  refine fieldValOf_single_ok rfl ?_
  intro m hm
  obtain ⟨st, k, hk, hcw, hcs⟩ := caps_of_cons hm
  exact ⟨st, k, hk, countWhile_pos_ne_nil (le_trans hk hcw), hcs⟩

theorem fieldValOf_poNo (s : List Char) :
    ∃ g, fieldValOf poNoPat s = Except.ok g ∧ (g = none ∨ ∃ v, v ≠ "" ∧ g = some v) := by
  refine fieldValOf_single_ok rfl ?_
  intro m hm
  obtain ⟨st, k, hk, hcw, hcs⟩ := caps_of_poNo hm
  exact ⟨st, k, hk, countWhile_pos_ne_nil (le_trans hk hcw), hcs⟩

theorem fieldValOf_truck (s : List Char) :
    ∃ g, fieldValOf truckPat s = Except.ok g ∧ (g = none ∨ ∃ v, v ≠ "" ∧ g = some v) := by
  refine fieldValOf_single_ok rfl ?_
  intro m hm
  obtain ⟨st, k, hk, hcw, hcs⟩ := caps_of_truck hm
  exact ⟨st, k, hk, countWhile_pos_ne_nil (le_trans hk hcw), hcs⟩

/-- The two-group PO-Date pattern can never raise an `IndexError`: both
group accesses are in range. -/
theorem fieldValOf_poDate (s : List Char) :
    ∃ g, fieldValOf poDatePat s = Except.ok g := by
  unfold fieldValOf
  cases hr : reSearch poDatePat.alts s with
  | none => exact ⟨none, rfl⟩
  | some m => simp only []; exact groupOr_two_ok s m.caps

/-- The derived Challan No value (source lines 403-404). -/
def challanOf (g3 : Option String) : Option String := if pyTruthy g3 then g3 else none

/-- The metadata dict produced by one full pass of the extraction loops,
expressed by the per-field loop-body values. -/
def mdNorm (gGrn gGrnD gVen gPo gPoD gCons gTrk : Option String) (f : String) : Mdict :=
  [("GRN No", gGrn), ("GRN Date", gGrnD), ("Vendor Invoice No", gVen), ("PO No", gPo),
   ("PO Date", gPoD), ("Consignee Location", gCons), ("Truck No", gTrk),
   ("Challan No", challanOf gVen), ("Source File", some f)]

theorem applyPattern_eq (md : Mdict) (key : String) {pat : Pat} {s : List Char}
    {g : Option String}
    (hg : fieldValOf pat s = Except.ok g)
    (hnone : dictSet md key none = md) :
    applyPattern md key pat s = Except.ok (dictSet md key g) := by
  unfold applyPattern
  unfold fieldValOf at hg
  cases hr : reSearch pat.alts s with
  | none =>
      rw [hr] at hg
      injection hg with hg2
      simp only []
      rw [← hg2, hnone]
  | some m =>
      rw [hr] at hg
      simp only [] at hg
      simp only []
      rw [hg]
      rfl

/-- Normal form of one full extraction pass: `extract_grn_data` always
returns `Except.ok`, its metadata dict is `mdNorm` of the seven loop-body
values, the Vendor Invoice value is `None` or a non-empty string, and the
item list is `extractItems`. -/
theorem extract_norm (t f : String) :
    ∃ gGrn gGrnD gVen gPo gPoD gCons gTrk : Option String,
      fieldValOf grnNoPat t.data = Except.ok gGrn ∧
      fieldValOf grnDatePat t.data = Except.ok gGrnD ∧
      fieldValOf vendorPat t.data = Except.ok gVen ∧
      fieldValOf poNoPat t.data = Except.ok gPo ∧
      fieldValOf poDatePat t.data = Except.ok gPoD ∧
      fieldValOf consPat t.data = Except.ok gCons ∧
      fieldValOf truckPat t.data = Except.ok gTrk ∧
      (gVen = none ∨ ∃ v, v ≠ "" ∧ gVen = some v) ∧
      extract_grn_data t f =
        Except.ok (mdNorm gGrn gGrnD gVen gPo gPoD gCons gTrk f, extractItems t.data) := by
  obtain ⟨gGrn, hGrn, -⟩ := fieldValOf_grnNo t.data
  obtain ⟨gGrnD, hGrnD, -⟩ := fieldValOf_grnDate t.data
  obtain ⟨gVen, hVen, hVenD⟩ := fieldValOf_vendor t.data
  obtain ⟨gCons, hCons, -⟩ := fieldValOf_cons t.data
  obtain ⟨gPo, hPo, -⟩ := fieldValOf_poNo t.data
  obtain ⟨gPoD, hPoD⟩ := fieldValOf_poDate t.data
  obtain ⟨gTrk, hTrk, -⟩ := fieldValOf_truck t.data
  refine ⟨gGrn, gGrnD, gVen, gPo, gPoD, gCons, gTrk,
    hGrn, hGrnD, hVen, hPo, hPoD, hCons, hTrk, hVenD, ?_⟩
  have h1 := applyPattern_eq (initMd f) "GRN No" hGrn rfl
  have h2 := applyPattern_eq (dictSet (initMd f) "GRN No" gGrn)
    "GRN Date" hGrnD rfl
  have h3 := applyPattern_eq
    (dictSet (dictSet (initMd f) "GRN No" gGrn) "GRN Date" gGrnD)
    "Vendor Invoice No" hVen rfl
  have h4 := applyPattern_eq
    (dictSet (dictSet (dictSet (initMd f) "GRN No" gGrn) "GRN Date" gGrnD)
      "Vendor Invoice No" gVen)
    "Consignee Location" hCons rfl
  have h5 := applyPattern_eq
    (dictSet (dictSet (dictSet (dictSet (initMd f) "GRN No" gGrn)
      "GRN Date" gGrnD) "Vendor Invoice No" gVen) "Consignee Location" gCons)
    "PO No" hPo rfl
  have h6 := applyPattern_eq
    (dictSet (dictSet (dictSet (dictSet (dictSet (initMd f) "GRN No" gGrn)
      "GRN Date" gGrnD) "Vendor Invoice No" gVen) "Consignee Location" gCons)
      "PO No" gPo)
    "PO Date" hPoD rfl
  have h7 := applyPattern_eq
    (dictSet (dictSet (dictSet (dictSet (dictSet (dictSet (initMd f)
      "GRN No" gGrn) "GRN Date" gGrnD) "Vendor Invoice No" gVen)
      "Consignee Location" gCons) "PO No" gPo) "PO Date" gPoD)
    "Truck No" hTrk rfl
  have hget : pyGet (dictSet (dictSet (dictSet (dictSet (dictSet (dictSet (dictSet
      (initMd f) "GRN No" gGrn) "GRN Date" gGrnD) "Vendor Invoice No" gVen)
      "Consignee Location" gCons) "PO No" gPo) "PO Date" gPoD) "Truck No" gTrk)
      "Vendor Invoice No" = gVen := rfl
  simp only [extract_grn_data, h1, h2, h3, h4, h5, h6, h7, exbind_ok, hget]
  cases hpt : pyTruthy gVen with
  | false =>
      simp only [hpt, Bool.false_eq_true, if_false]
      unfold mdNorm challanOf
      rw [hpt]
      simp only [Bool.false_eq_true, if_false]
      rfl
  | true =>
      simp only [hpt, if_true]
      unfold mdNorm challanOf
      rw [hpt]
      simp only [if_true]
      rfl

/-- Any token prefix of a successful run can be peeled off: some state
reaches the remaining tokens. -/
theorem sound_anytail {s : List Char} :
    ∀ {toks1 : List Tok} {rest f pos pend caps r},
    engine s f (MState.run (toks1 ++ rest) pos pend caps) = some r →
    ∃ pos' pend' caps' f', engine s f' (MState.run rest pos' pend' caps') = some r := by
  intro toks1
  induction toks1 with
  | nil => intro rest f pos pend caps r h; exact ⟨pos, pend, caps, f, h⟩
  | cons t ts ih =>
      intro rest f pos pend caps r h
      rw [List.cons_append] at h
      cases t with
      | lit ci l => obtain ⟨-, f', h'⟩ := sound_lit h; exact ih h'
      | cls p lo hi lzy => obtain ⟨k, -, -, f', h'⟩ := sound_cls h; exact ih h'
      | openG n => obtain ⟨f', h'⟩ := sound_open h; exact ih h'
      | closeG n => obtain ⟨q, f', -, h'⟩ := sound_close h; exact ih h'
      | nlook p => obtain ⟨f', h'⟩ := sound_nlook h; exact ih h'
      | wordB => obtain ⟨f', h'⟩ := sound_wordB h; exact ih h'

/-- The Consignee pattern ends in a literal newline, so it can only match
texts containing a newline character. -/
theorem reSearch_cons_none {s : List Char} (hnl : '\n' ∉ s) :
    reSearch consPat.alts s = none := by
  unfold reSearch
  apply searchAux_none_of
  intro pos
  rw [show consPat.alts = [consToks] from rfl, tryAlts_single]
  cases hm : matchRun s consToks pos with
  | none => rfl
  | some r =>
      exfalso
      apply hnl
      unfold matchRun at hm
      rw [show consToks = [Tok.lit true "Consignee".data, spcCls 0, Tok.lit true ":".data,
        spcCls 0, Tok.openG 1, Tok.cls (fun c => c != '\n') 1 none false, Tok.closeG 1]
        ++ [Tok.lit true "\n".data] from rfl] at hm
      obtain ⟨pos', pend', caps', f', h'⟩ := sound_anytail hm
      obtain ⟨hlit, -⟩ := sound_lit h'
      exact List.drop_subset _ _ (litAt_newline hlit)

/-- A one-group capture list yields a non-empty group-1 string. -/
theorem capStr_single_ne {s : List Char} {st k : Nat}
    (hk : 1 ≤ k) (hne : s.drop st ≠ []) :
    ∃ v, capStr s [(1, st, st + k)] 1 = some v ∧ v ≠ [] := by
  refine ⟨(s.drop st).take k, ?_, take_ne_nil hk hne⟩
  unfold capStr
  simp [List.find?, Nat.add_sub_cancel_left]

/-- Shared example text: a bare item table with one syntactically valid row
and no header anchors. -/
def tRow : String := "S No Article\n1 100 Widget Blue 1234567890123 PCS 10 10 10 99.50"

/-- C1: for every input text and source filename, the metadata record
returned by `extract_grn_data` satisfies: Challan No equals Vendor Invoice
No whenever Vendor Invoice No is non-null, and Challan No is null whenever
Vendor Invoice No is null. -/
theorem C1_challan_invariant (t f : String) (md : Mdict) (items : List Item)
    (h : extract_grn_data t f = Except.ok (md, items)) :
    (mdLookup md "Vendor Invoice No" = some none →
      mdLookup md "Challan No" = some none) ∧
    (∀ v : String, mdLookup md "Vendor Invoice No" = some (some v) →
      mdLookup md "Challan No" = some (some v)) := by
  obtain ⟨gGrn, gGrnD, gVen, gPo, gPoD, gCons, gTrk, -, -, -, -, -, -, -, hVenD, hex⟩ :=
    extract_norm t f
  rw [h] at hex
  injection hex with hex1
  injection hex1 with hmd hitems
  subst hmd
  have hvl : mdLookup (mdNorm gGrn gGrnD gVen gPo gPoD gCons gTrk f)
      "Vendor Invoice No" = some gVen := rfl
  have hcl : mdLookup (mdNorm gGrn gGrnD gVen gPo gPoD gCons gTrk f)
      "Challan No" = some (challanOf gVen) := rfl
  constructor
  · intro hv
    rw [hvl] at hv
    injection hv with hv2
    rw [hcl, hv2]
    rfl
  · intro v hv
    rw [hvl] at hv
    injection hv with hv2
    rw [hcl, hv2]
    rcases hVenD with hnone | ⟨v', hv', heq⟩
    · rw [hnone] at hv2; exact absurd hv2 (by simp)
    · rw [heq] at hv2
      injection hv2 with hv3
      subst hv3
      unfold challanOf
      rw [if_pos (by simp [pyTruthy, bne_iff_ne]; exact hv')]

/-- C1 witness: on the empty text the Vendor Invoice value is null and so is
Challan No. -/
theorem C1_challan_invariant_witness :
    mdLookup (initMd "x") "Challan No" = some none :=
  (C1_challan_invariant "" "x" (initMd "x") [] rfl).1 rfl

/-- C2 counterexample: the processing loops do not run `clean_text` before
field extraction; on a text whose Consignee value is newline-terminated the
real pipeline extracts it while the spec-described normalize-first pipeline
does not. -/
theorem C2_counterexample :
    process_document "Consignee : X\nY" "f" ≠
      process_document_spec "Consignee : X\nY" "f" := by
  have h1 : process_document "Consignee : X\nY" "f" = Except.ok
      ([("GRN No", none), ("GRN Date", none), ("Vendor Invoice No", none), ("PO No", none),
        ("PO Date", none), ("Consignee Location", some "X"), ("Truck No", none),
        ("Challan No", none), ("Source File", some "f")], []) := rfl
  have h2 : process_document_spec "Consignee : X\nY" "f" =
      Except.ok (initMd "f", []) := rfl
  rw [h1, h2]
  intro hcon
  injection hcon with hcon1
  injection hcon1 with hmd hit
  simp [initMd] at hmd

/-- C2 amended: the per-document pipeline feeds the externally extracted PDF
text to `extract_grn_data` directly; `clean_text` is not applied in between. -/
theorem C2_pipeline_raw_text :
    ∀ t f : String, process_document t f = extract_grn_data t f :=
  fun _ _ => rfl

/-- C3 counterexample: the metadata record has no Processing Date field at
all (the dict of source lines 382-386 never contains that key). -/
theorem C3_counterexample :
    extract_grn_data "" "x" = Except.ok (initMd "x", []) ∧
    mdLookup (initMd "x") "Processing Date" = none :=
  ⟨rfl, rfl⟩

/-- C3 amended: every metadata record carries Source File equal to the given
filename, but no Processing Date field exists in the record. -/
theorem C3_source_file_always (t f : String) (md : Mdict) (items : List Item)
    (h : extract_grn_data t f = Except.ok (md, items)) :
    mdLookup md "Source File" = some (some f) ∧
    mdLookup md "Processing Date" = none := by
  obtain ⟨gGrn, gGrnD, gVen, gPo, gPoD, gCons, gTrk, -, -, -, -, -, -, -, -, hex⟩ :=
    extract_norm t f
  rw [h] at hex
  injection hex with hex1
  injection hex1 with hmd hitems
  subst hmd
  exact ⟨rfl, rfl⟩

/-- C3 witness: concrete instance on the empty text. -/
theorem C3_source_file_always_witness :
    mdLookup (initMd "x") "Source File" = some (some "x") ∧
    mdLookup (initMd "x") "Processing Date" = none :=
  C3_source_file_always "" "x" (initMd "x") [] rfl

/-- C4: `extract_grn_data` is total — it returns `Except.ok` on every input —
and for each of the six single-group header patterns any match carries a
non-empty group-1 capture, so the short-circuited `or` never reaches the
out-of-range group 2. -/
theorem C4_extract_total :
    (∀ t f : String, ∃ md items, extract_grn_data t f = Except.ok (md, items)) ∧
    (∀ (s : List Char) (m : MRes), reSearch grnNoPat.alts s = some m →
      ∃ v, capStr s m.caps 1 = some v ∧ v ≠ []) ∧
    (∀ (s : List Char) (m : MRes), reSearch grnDatePat.alts s = some m →
      ∃ v, capStr s m.caps 1 = some v ∧ v ≠ []) ∧
    (∀ (s : List Char) (m : MRes), reSearch vendorPat.alts s = some m →
      ∃ v, capStr s m.caps 1 = some v ∧ v ≠ []) ∧
    (∀ (s : List Char) (m : MRes), reSearch consPat.alts s = some m →
      ∃ v, capStr s m.caps 1 = some v ∧ v ≠ []) ∧
    (∀ (s : List Char) (m : MRes), reSearch poNoPat.alts s = some m →
      ∃ v, capStr s m.caps 1 = some v ∧ v ≠ []) ∧
    (∀ (s : List Char) (m : MRes), reSearch truckPat.alts s = some m →
      ∃ v, capStr s m.caps 1 = some v ∧ v ≠ []) := by
  refine ⟨?_, ?_, ?_, ?_, ?_, ?_, ?_⟩
  · intro t f
    obtain ⟨gGrn, gGrnD, gVen, gPo, gPoD, gCons, gTrk, -, -, -, -, -, -, -, -, hex⟩ :=
      extract_norm t f
    exact ⟨_, _, hex⟩
  · intro s m hm
    obtain ⟨st, k, hk, hcw, hcs⟩ := caps_of_grnNo hm
    rw [hcs]
    exact capStr_single_ne hk (countWhile_pos_ne_nil (le_trans hk hcw))
  · intro s m hm
    obtain ⟨st, hcs, hcw⟩ := caps_of_grnDate hm
    rw [hcs]
    have h1 : 1 ≤ countWhile isDigitC (s.drop st) := by omega
    exact capStr_single_ne (by omega) (countWhile_pos_ne_nil h1)
  · intro s m hm
    obtain ⟨st, k, hk, hcw, hcs⟩ := caps_of_vendor hm
    rw [hcs]
    exact capStr_single_ne hk (countWhile_pos_ne_nil (le_trans hk hcw))
  · intro s m hm
    obtain ⟨st, k, hk, hcw, hcs⟩ := caps_of_cons hm
    rw [hcs]
    exact capStr_single_ne hk (countWhile_pos_ne_nil (le_trans hk hcw))
  · intro s m hm
    obtain ⟨st, k, hk, hcw, hcs⟩ := caps_of_poNo hm
    rw [hcs]
    exact capStr_single_ne hk (countWhile_pos_ne_nil (le_trans hk hcw))
  · intro s m hm
    obtain ⟨st, k, hk, hcw, hcs⟩ := caps_of_truck hm
    rw [hcs]
    exact capStr_single_ne hk (countWhile_pos_ne_nil (le_trans hk hcw))

/-- C4 witness: a concrete Vendor Invoice match with its non-empty group-1
capture, plus totality on a concrete input. -/
theorem C4_extract_total_witness :
    (∃ md items, extract_grn_data "" "x" = Except.ok (md, items)) ∧
    (∃ v, capStr "Vendor invoice no : INV999".data
        (MRes.mk 0 26 [(1, 20, 26)]).caps 1 = some v ∧ v ≠ []) :=
  ⟨C4_extract_total.1 "" "x",
   C4_extract_total.2.2.2.1 "Vendor invoice no : INV999".data ⟨0, 26, [(1, 20, 26)]⟩ rfl⟩

/-- C5 counterexample: a text containing none of the seven header anchors
but a full item table; all metadata fields are null yet the item sequence is
non-empty, refuting the claim's "and an empty item sequence" conjunct. -/
theorem C5_counterexample :
    reSearch grnNoPat.alts tRow.data = none ∧
    reSearch grnDatePat.alts tRow.data = none ∧
    reSearch vendorPat.alts tRow.data = none ∧
    reSearch consPat.alts tRow.data = none ∧
    reSearch poNoPat.alts tRow.data = none ∧
    reSearch poDatePat.alts tRow.data = none ∧
    reSearch truckPat.alts tRow.data = none ∧
    extract_grn_data tRow "f" = Except.ok (initMd "f",
      [⟨"1", "100", "Widget Blue", "1234567890123", "PCS", "10", "10", "10", "99.50"⟩]) :=
  ⟨rfl, rfl, rfl, rfl, rfl, rfl, rfl, rfl⟩

/-- C5 amended: when none of the seven header patterns matches, the metadata
record is exactly the initial all-null record with Source File set; if in
addition the table marker is absent — in particular on the empty string —
the item sequence is empty. -/
theorem C5_no_anchor_all_null (t f : String)
    (h1 : reSearch grnNoPat.alts t.data = none)
    (h2 : reSearch grnDatePat.alts t.data = none)
    (h3 : reSearch vendorPat.alts t.data = none)
    (h4 : reSearch consPat.alts t.data = none)
    (h5 : reSearch poNoPat.alts t.data = none)
    (h6 : reSearch poDatePat.alts t.data = none)
    (h7 : reSearch truckPat.alts t.data = none) :
    extract_grn_data t f = Except.ok (initMd f, extractItems t.data) ∧
    (reSearch [tableStartToks] t.data = none → extractItems t.data = []) := by
  obtain ⟨gGrn, gGrnD, gVen, gPo, gPoD, gCons, gTrk, hgGrn, hgGrnD, hgVen, hgPo,
    hgPoD, hgCons, hgTrk, -, hex⟩ := extract_norm t f
  have e1 : gGrn = none := by
    unfold fieldValOf at hgGrn; rw [h1] at hgGrn; injection hgGrn with e; exact e.symm
  have e2 : gGrnD = none := by
    unfold fieldValOf at hgGrnD; rw [h2] at hgGrnD; injection hgGrnD with e; exact e.symm
  have e3 : gVen = none := by
    unfold fieldValOf at hgVen; rw [h3] at hgVen; injection hgVen with e; exact e.symm
  have e4 : gCons = none := by
    unfold fieldValOf at hgCons; rw [h4] at hgCons; injection hgCons with e; exact e.symm
  have e5 : gPo = none := by
    unfold fieldValOf at hgPo; rw [h5] at hgPo; injection hgPo with e; exact e.symm
  have e6 : gPoD = none := by
    unfold fieldValOf at hgPoD; rw [h6] at hgPoD; injection hgPoD with e; exact e.symm
  have e7 : gTrk = none := by
    unfold fieldValOf at hgTrk; rw [h7] at hgTrk; injection hgTrk with e; exact e.symm
  subst e1; subst e2; subst e3; subst e4; subst e5; subst e6; subst e7
  constructor
  · exact hex
  · intro hm
    unfold extractItems
    rw [hm]

/-- C5 witness: the empty string, modelling upstream PDF-extraction failure. -/
theorem C5_no_anchor_witness :
    extract_grn_data "" "w" = Except.ok (initMd "w", extractItems "".data) ∧
    (reSearch [tableStartToks] "".data = none → extractItems "".data = []) :=
  C5_no_anchor_all_null "" "w" rfl rfl rfl rfl rfl rfl rfl

/-- C6: the spec's end-to-end table example — the bare table substring with
one row yields exactly one fully populated item record. -/
theorem C6_example_row :
    extract_grn_data tRow "file.pdf" = Except.ok (initMd "file.pdf",
      [⟨"1", "100", "Widget Blue", "1234567890123", "PCS", "10", "10", "10", "99.50"⟩]) :=
  rfl

/-- C7: the item sequence is empty when the table marker is absent, and also
when the marker is present but the row grammar has no match after it; neither
case is an error (the function still returns `Except.ok`). -/
theorem C7_zero_items (t f : String) (md : Mdict) (items : List Item)
    (h : extract_grn_data t f = Except.ok (md, items)) :
    (reSearch [tableStartToks] t.data = none → items = []) ∧
    (∀ m : MRes, reSearch [tableStartToks] t.data = some m →
      finditer itemToks (t.data.drop m.ms) = [] → items = []) := by
  obtain ⟨gGrn, gGrnD, gVen, gPo, gPoD, gCons, gTrk, -, -, -, -, -, -, -, -, hex⟩ :=
    extract_norm t f
  rw [h] at hex
  injection hex with hex1
  injection hex1 with hmd hitems
  subst hitems
  constructor
  · intro hm
    unfold extractItems
    rw [hm]
  · intro m hm hf
    unfold extractItems
    rw [hm]
    simp only []
    rw [hf]
    rfl

/-- C7 witness: a text with the marker but no valid row yields the empty
item sequence. -/
theorem C7_zero_items_witness :
    extract_grn_data "S No Article nothing else" "f" = Except.ok (initMd "f", []) ∧
    ([] : List Item) = [] :=
  ⟨rfl, (C7_zero_items "S No Article nothing else" "f" (initMd "f") [] rfl).2
    ⟨0, 12, []⟩ rfl rfl⟩

/-- C8: the Consignee pattern's capture runs up to a required literal
newline, so on any text without a newline the field stays null even with the
anchor present; with a newline the capture is everything up to it. -/
theorem C8_consignee_requires_newline :
    (∀ (t f : String) (md : Mdict) (items : List Item),
      extract_grn_data t f = Except.ok (md, items) → '\n' ∉ t.data →
      mdLookup md "Consignee Location" = some none) ∧
    extract_grn_data "Consignee : Mumbai WH\nX" "g" = Except.ok
      ([("GRN No", none), ("GRN Date", none), ("Vendor Invoice No", none), ("PO No", none),
        ("PO Date", none), ("Consignee Location", some "Mumbai WH"), ("Truck No", none),
        ("Challan No", none), ("Source File", some "g")], []) := by
  constructor
  · intro t f md items h hnl
    obtain ⟨gGrn, gGrnD, gVen, gPo, gPoD, gCons, gTrk, -, -, -, -, -, hgCons, -, -, hex⟩ :=
      extract_norm t f
    have hc : gCons = none := by
      unfold fieldValOf at hgCons
      rw [reSearch_cons_none hnl] at hgCons
      injection hgCons with e
      exact e.symm
    rw [h] at hex
    injection hex with hex1
    injection hex1 with hmd hitems
    subst hmd
    have hcl : mdLookup (mdNorm gGrn gGrnD gVen gPo gPoD gCons gTrk f)
        "Consignee Location" = some gCons := rfl
    rw [hcl, hc]
  · rfl

/-- C8 witness: a Consignee anchor with a value but no newline leaves the
field null. -/
theorem C8_consignee_requires_newline_witness :
    mdLookup (initMd "f") "Consignee Location" = some none :=
  C8_consignee_requires_newline.1 "Consignee : Mumbai" "f" (initMd "f") [] rfl (by decide)

/-!  Forward (evaluation) lemmas: each builds a successful engine run from a
successful run of the remaining tokens, consuming a fixed amount of fuel.
They are used to evaluate the two date patterns symbolically for C10. -/

theorem fw_nil {s : List Char} {pos : Nat} {pend caps} (f : Nat) :
    engine s (f + 1) (MState.run [] pos pend caps) = some (pos, caps) := by
  rw [engine.eq_def]

theorem fw_lit {s : List Char} {f ci l rest pos pend caps r}
    (hl : litAt ci l (s.drop pos) = true)
    (h : engine s f (MState.run rest (pos + l.length) pend caps) = some r) :
    engine s (f + 1) (MState.run (Tok.lit ci l :: rest) pos pend caps) = some r := by
  rw [engine.eq_def]
  simp only []
  rw [if_pos hl]
  exact h

theorem fw_cls_head {s : List Char} {f : Nat} {p lo hi lzy rest pos pend caps r k w}
    (hlo : ¬ clsBound p hi s pos < lo)
    (hcn : clsCounts lo (clsBound p hi s pos) lzy = k :: w)
    (h : engine s f (MState.run rest (pos + k) pend caps) = some r) :
    engine s (f + 2) (MState.run (Tok.cls p lo hi lzy :: rest) pos pend caps) = some r := by
  rw [engine.eq_def]
  simp only []
  rw [if_neg hlo, hcn, engine.eq_def]
  simp only []
  rw [h]

theorem fw_open {s : List Char} {f n rest pos pend caps r}
    (h : engine s f (MState.run rest pos ((n, pos) :: pend) caps) = some r) :
    engine s (f + 1) (MState.run (Tok.openG n :: rest) pos pend caps) = some r := by
  rw [engine.eq_def]
  exact h

theorem fw_close_head {s : List Char} {f n rest pos st pend caps r}
    (h : engine s f (MState.run rest pos ((n, st) :: pend) ((n, st, pos) :: caps)) = some r) :
    engine s (f + 1) (MState.run (Tok.closeG n :: rest) pos ((n, st) :: pend) caps) = some r := by
  rw [engine.eq_def]
  simp only []
  rw [List.find?_cons_of_pos _ (by simp)]
  exact h

theorem fw_nlook_zero {s : List Char} {f p rest pend caps r}
    (h : engine s f (MState.run rest 0 pend caps) = some r) :
    engine s (f + 1) (MState.run (Tok.nlook p :: rest) 0 pend caps) = some r := by
  rw [engine.eq_def]
  simp only [if_pos rfl]
  exact h

theorem fw_nlook_prev {s : List Char} {f p rest pos pend caps r c}
    (hpos : pos ≠ 0) (hc : s[pos - 1]? = some c) (hp : p c = false)
    (h : engine s f (MState.run rest pos pend caps) = some r) :
    engine s (f + 1) (MState.run (Tok.nlook p :: rest) pos pend caps) = some r := by
  rw [engine.eq_def]
  simp only [if_neg hpos, hc, hp, Bool.false_eq_true, if_false]
  exact h

theorem lit_head_none {s : List Char} {f ci l rest pos pend caps}
    (hl : litAt ci l (s.drop pos) = false) :
    engine s f (MState.run (Tok.lit ci l :: rest) pos pend caps) = none := by
  cases f with
  | zero => rfl
  | succ f =>
      rw [engine.eq_def]
      simp only []
      rw [if_neg (by simp [hl])]

theorem drop_shift {s : List Char} {pos a : Nat} {tail : List Char}
    (h : s.drop pos = tail) : s.drop (pos + a) = tail.drop a := by
  rw [← List.drop_drop, h]

theorem cw_cons_true {p : Char → Bool} {c : Char} {cs : List Char} (h : p c = true) :
    countWhile p (c :: cs) = countWhile p cs + 1 := by
  simp [countWhile, h]

theorem cw_cons_false {p : Char → Bool} {c : Char} {cs : List Char} (h : p c = false) :
    countWhile p (c :: cs) = 0 := by
  simp [countWhile, h]

theorem digit_not_spc {c : Char} (h : isDigitC c = true) : isSpc c = false := by
  by_contra hc
  rw [Bool.not_eq_false] at hc
  simp only [isSpc, Bool.or_eq_true, beq_iff_eq] at hc
  rcases hc with ((((h1 | h1) | h1) | h1) | h1) | h1 <;> subst h1 <;>
    exact absurd h (by decide)

/-- The ten characters of a `DD.MM.YYYY` date. -/
def dateChars (d1 d2 m1 m2 y1 y2 y3 y4 : Char) : List Char :=
  [d1, d2, '.', m1, m2, '.', y1, y2, y3, y4]

/-- One textual occurrence `Date: DD.MM.YYYY` (anchor, colon, one space,
then the date). -/
def dateOcc (d1 d2 m1 m2 y1 y2 y3 y4 : Char) : List Char :=
  'D' :: 'a' :: 't' :: 'e' :: ':' :: ' ' :: dateChars d1 d2 m1 m2 y1 y2 y3 y4

/-- Symbolic evaluation of the date group at a position where the text
continues with ten date characters: it consumes them and captures group `j`. -/
theorem fw_dateGrp (j : Nat) (pend : List (Nat × Nat)) (caps : List (Nat × Nat × Nat))
    {s : List Char} {pos : Nat}
    {d1 d2 m1 m2 y1 y2 y3 y4 : Char} {post : List Char}
    (hdrop : s.drop pos = dateChars d1 d2 m1 m2 y1 y2 y3 y4 ++ post)
    (hd1 : isDigitC d1 = true) (hd2 : isDigitC d2 = true)
    (hm1 : isDigitC m1 = true) (hm2 : isDigitC m2 = true)
    (hy1 : isDigitC y1 = true) (hy2 : isDigitC y2 = true)
    (hy3 : isDigitC y3 = true) (hy4 : isDigitC y4 = true) :
    ∀ f : Nat, engine s (f + 11) (MState.run (dateGrp j) pos pend caps)
      = some (pos + 10, (j, pos, pos + 10) :: caps) := by
  intro f
  have hd0 : s.drop pos =
      d1 :: d2 :: '.' :: m1 :: m2 :: '.' :: y1 :: y2 :: y3 :: y4 :: post := by
    rw [hdrop]; rfl
  have hd2' : s.drop (pos + 2) = '.' :: m1 :: m2 :: '.' :: y1 :: y2 :: y3 :: y4 :: post := by
    rw [drop_shift hd0]; rfl
  have hd3 : s.drop (pos + 3) = m1 :: m2 :: '.' :: y1 :: y2 :: y3 :: y4 :: post := by
    rw [drop_shift hd0]; rfl
  have hd5 : s.drop (pos + 5) = '.' :: y1 :: y2 :: y3 :: y4 :: post := by
    rw [drop_shift hd0]; rfl
  have hd6 : s.drop (pos + 6) = y1 :: y2 :: y3 :: y4 :: post := by
    rw [drop_shift hd0]; rfl
  have hdotd : isDigitC '.' = false := by decide
  have hcw0 : countWhile isDigitC (s.drop pos) = 2 := by
    rw [hd0, cw_cons_true hd1, cw_cons_true hd2, cw_cons_false hdotd]
  have hcw3 : countWhile isDigitC (s.drop (pos + 3)) = 2 := by
    rw [hd3, cw_cons_true hm1, cw_cons_true hm2, cw_cons_false hdotd]
  have hcw6 : countWhile isDigitC (s.drop (pos + 6)) = countWhile isDigitC post + 4 := by
    rw [hd6, cw_cons_true hy1, cw_cons_true hy2, cw_cons_true hy3, cw_cons_true hy4]
  have hcb0 : clsBound isDigitC (some 2) s pos = 2 := by
    unfold clsBound; rw [hcw0]; simp
  have hcb3 : clsBound isDigitC (some 2) s (pos + 3) = 2 := by
    unfold clsBound; rw [hcw3]; simp
  have hcb6 : clsBound isDigitC (some 4) s (pos + 6) = 4 := by
    unfold clsBound; rw [hcw6]; simp only []; omega
  have e_nil : engine s (f + 1) (MState.run [] (pos + 10) ((j, pos) :: pend)
      ((j, pos, pos + 10) :: caps)) = some (pos + 10, (j, pos, pos + 10) :: caps) :=
    fw_nil f
  have e_close : engine s (f + 2) (MState.run [Tok.closeG j] (pos + 10)
      ((j, pos) :: pend) caps) = some (pos + 10, (j, pos, pos + 10) :: caps) :=
    fw_close_head e_nil
  have e_cls3 : engine s (f + 4) (MState.run
      (Tok.cls isDigitC 4 (some 4) false :: [Tok.closeG j]) (pos + 6)
      ((j, pos) :: pend) caps) = some (pos + 10, (j, pos, pos + 10) :: caps) :=
    fw_cls_head (k := 4) (w := []) (by rw [hcb6]; omega) (by rw [hcb6]; decide) e_close
  have e_lit2 : engine s (f + 5) (MState.run
      (Tok.lit true ".".data :: Tok.cls isDigitC 4 (some 4) false :: [Tok.closeG j])
      (pos + 5) ((j, pos) :: pend) caps) = some (pos + 10, (j, pos, pos + 10) :: caps) :=
    fw_lit (by rw [hd5]; rfl) e_cls3
  have e_cls2 : engine s (f + 7) (MState.run
      (Tok.cls isDigitC 2 (some 2) false :: Tok.lit true ".".data ::
        Tok.cls isDigitC 4 (some 4) false :: [Tok.closeG j])
      (pos + 3) ((j, pos) :: pend) caps) = some (pos + 10, (j, pos, pos + 10) :: caps) :=
    fw_cls_head (k := 2) (w := []) (by rw [hcb3]; omega) (by rw [hcb3]; decide) e_lit2
  have e_lit1 : engine s (f + 8) (MState.run
      (Tok.lit true ".".data :: Tok.cls isDigitC 2 (some 2) false ::
        Tok.lit true ".".data :: Tok.cls isDigitC 4 (some 4) false :: [Tok.closeG j])
      (pos + 2) ((j, pos) :: pend) caps) = some (pos + 10, (j, pos, pos + 10) :: caps) :=
    fw_lit (by rw [hd2']; rfl) e_cls2
  have e_cls1 : engine s (f + 10) (MState.run
      (Tok.cls isDigitC 2 (some 2) false :: Tok.lit true ".".data ::
        Tok.cls isDigitC 2 (some 2) false :: Tok.lit true ".".data ::
        Tok.cls isDigitC 4 (some 4) false :: [Tok.closeG j])
      pos ((j, pos) :: pend) caps) = some (pos + 10, (j, pos, pos + 10) :: caps) :=
    fw_cls_head (k := 2) (w := []) (by rw [hcb0]; omega) (by rw [hcb0]; decide) e_lit1
  exact fw_open e_cls1

/-- Symbolic evaluation of the GRN Date pattern at the start of a
`Date: DD.MM.YYYY` occurrence. -/
theorem fw_grnDate {s : List Char} {i0 : Nat}
    {d1 d2 m1 m2 y1 y2 y3 y4 : Char} {post : List Char}
    (hdrop : s.drop i0 = dateOcc d1 d2 m1 m2 y1 y2 y3 y4 ++ post)
    (hd1 : isDigitC d1 = true) (hd2 : isDigitC d2 = true)
    (hm1 : isDigitC m1 = true) (hm2 : isDigitC m2 = true)
    (hy1 : isDigitC y1 = true) (hy2 : isDigitC y2 = true)
    (hy3 : isDigitC y3 = true) (hy4 : isDigitC y4 = true) :
    ∀ f : Nat, engine s (f + 14) (MState.run grnDateToks i0 [] [])
      = some (i0 + 16, [(1, i0 + 6, i0 + 16)]) := by
  intro f
  have hz : s.drop i0 = 'D' :: 'a' :: 't' :: 'e' :: ':' :: ' ' ::
      (dateChars d1 d2 m1 m2 y1 y2 y3 y4 ++ post) := by rw [hdrop]; rfl
  have hd5' : s.drop (i0 + 5) = ' ' :: (dateChars d1 d2 m1 m2 y1 y2 y3 y4 ++ post) := by
    rw [drop_shift hz]; rfl
  have hd6 : s.drop (i0 + 6) = dateChars d1 d2 m1 m2 y1 y2 y3 y4 ++ post := by
    rw [drop_shift hz]; rfl
  have hcw5 : countWhile isSpc (s.drop (i0 + 5)) = 1 := by
    rw [hd5', cw_cons_true (by decide : isSpc ' ' = true),
      show dateChars d1 d2 m1 m2 y1 y2 y3 y4 ++ post =
        d1 :: (d2 :: '.' :: m1 :: m2 :: '.' :: y1 :: y2 :: y3 :: y4 :: post) from rfl,
      cw_cons_false (digit_not_spc hd1)]
  have hcb5 : clsBound isSpc none s (i0 + 5) = 1 := by
    unfold clsBound; rw [hcw5]
  have edg := fw_dateGrp 1 [] [] hd6 hd1 hd2 hm1 hm2 hy1 hy2 hy3 hy4 f
  have e_spc : engine s (f + 13) (MState.run (spcCls 0 :: dateGrp 1) (i0 + 5) [] [])
      = some (i0 + 16, [(1, i0 + 6, i0 + 16)]) :=
    fw_cls_head (k := 1) (w := [0]) (by rw [hcb5]; omega) (by rw [hcb5]; decide) edg
  exact fw_lit (by rw [hz]; rfl) e_spc

/-- Symbolic evaluation of the second PO-Date alternative
`(?<!\S)Date\s*:\s*(date)` at the start of a `Date: DD.MM.YYYY` occurrence
that sits at position 0 or is preceded by whitespace. -/
theorem fw_poDate2 {s : List Char} {i0 : Nat}
    {d1 d2 m1 m2 y1 y2 y3 y4 : Char} {post : List Char}
    (hdrop : s.drop i0 = dateOcc d1 d2 m1 m2 y1 y2 y3 y4 ++ post)
    (hd1 : isDigitC d1 = true) (hd2 : isDigitC d2 = true)
    (hm1 : isDigitC m1 = true) (hm2 : isDigitC m2 = true)
    (hy1 : isDigitC y1 = true) (hy2 : isDigitC y2 = true)
    (hy3 : isDigitC y3 = true) (hy4 : isDigitC y4 = true)
    (hprev : i0 = 0 ∨ (i0 ≠ 0 ∧ ∃ c, s[i0 - 1]? = some c ∧ isSpc c = true)) :
    ∀ f : Nat, engine s (f + 18) (MState.run poDateToks2 i0 [] [])
      = some (i0 + 16, [(2, i0 + 6, i0 + 16)]) := by
  intro f
  have hz : s.drop i0 = 'D' :: 'a' :: 't' :: 'e' :: ':' :: ' ' ::
      (dateChars d1 d2 m1 m2 y1 y2 y3 y4 ++ post) := by rw [hdrop]; rfl
  have hd4 : s.drop (i0 + 4) = ':' :: ' ' ::
      (dateChars d1 d2 m1 m2 y1 y2 y3 y4 ++ post) := by
    rw [drop_shift hz]; rfl
  have hd5' : s.drop (i0 + 5) = ' ' :: (dateChars d1 d2 m1 m2 y1 y2 y3 y4 ++ post) := by
    rw [drop_shift hz]; rfl
  have hd6 : s.drop (i0 + 6) = dateChars d1 d2 m1 m2 y1 y2 y3 y4 ++ post := by
    rw [drop_shift hz]; rfl
  have hcw4 : countWhile isSpc (s.drop (i0 + 4)) = 0 := by
    rw [hd4, cw_cons_false (by decide : isSpc ':' = false)]
  have hcb4 : clsBound isSpc none s (i0 + 4) = 0 := by
    unfold clsBound; rw [hcw4]
  have hcw5 : countWhile isSpc (s.drop (i0 + 5)) = 1 := by
    rw [hd5', cw_cons_true (by decide : isSpc ' ' = true),
      show dateChars d1 d2 m1 m2 y1 y2 y3 y4 ++ post =
        d1 :: (d2 :: '.' :: m1 :: m2 :: '.' :: y1 :: y2 :: y3 :: y4 :: post) from rfl,
      cw_cons_false (digit_not_spc hd1)]
  have hcb5 : clsBound isSpc none s (i0 + 5) = 1 := by
    unfold clsBound; rw [hcw5]
  have edg := fw_dateGrp 2 [] [] hd6 hd1 hd2 hm1 hm2 hy1 hy2 hy3 hy4 f
  have e_spc2 : engine s (f + 13) (MState.run (spcCls 0 :: dateGrp 2) (i0 + 5) [] [])
      = some (i0 + 16, [(2, i0 + 6, i0 + 16)]) :=
    fw_cls_head (k := 1) (w := [0]) (by rw [hcb5]; omega) (by rw [hcb5]; decide) edg
  have e_colon : engine s (f + 14) (MState.run
      (Tok.lit true ":".data :: spcCls 0 :: dateGrp 2) (i0 + 4) [] [])
      = some (i0 + 16, [(2, i0 + 6, i0 + 16)]) :=
    fw_lit (by rw [hd4]; rfl) e_spc2
  have e_spc1 : engine s (f + 16) (MState.run
      (spcCls 0 :: Tok.lit true ":".data :: spcCls 0 :: dateGrp 2) (i0 + 4) [] [])
      = some (i0 + 16, [(2, i0 + 6, i0 + 16)]) :=
    fw_cls_head (k := 0) (w := []) (by rw [hcb4]; omega) (by rw [hcb4]; decide) e_colon
  have e_date : engine s (f + 17) (MState.run
      (Tok.lit true "Date".data :: spcCls 0 :: Tok.lit true ":".data :: spcCls 0 ::
        dateGrp 2) i0 [] [])
      = some (i0 + 16, [(2, i0 + 6, i0 + 16)]) :=
    fw_lit (by rw [hz]; rfl) e_spc1
  rcases hprev with h0 | ⟨hne, c, hc, hspc⟩
  · subst h0
    exact fw_nlook_zero e_date
  · exact fw_nlook_prev hne hc (by simp [isNotSpc, hspc]) e_date

/-- C10: when the text's only date-like content is one `Date: DD.MM.YYYY`
occurrence — formalized as: the occurrence starts the text or follows a
whitespace character, no `PO Number` anchor occurs anywhere, and neither
date pattern matches at any earlier position — then `extract_grn_data`
assigns the same captured date string to both GRN Date and PO Date: the PO
Date standalone-`Date:` fallback matches exactly the occurrence the GRN Date
pattern matches. -/
theorem C10_shared_date_anchor (pre post : List Char)
    (d1 d2 m1 m2 y1 y2 y3 y4 : Char) (f : String) (md : Mdict) (items : List Item)
    (hd1 : isDigitC d1 = true) (hd2 : isDigitC d2 = true)
    (hm1 : isDigitC m1 = true) (hm2 : isDigitC m2 = true)
    (hy1 : isDigitC y1 = true) (hy2 : isDigitC y2 = true)
    (hy3 : isDigitC y3 = true) (hy4 : isDigitC y4 = true)
    (hws : pre = [] ∨ ∃ c pre0, pre = pre0 ++ [c] ∧ isSpc c = true)
    (hnp : hasLitCI "PO Number".data
      (pre ++ (dateOcc d1 d2 m1 m2 y1 y2 y3 y4 ++ post)) = false)
    (hfirstG : ∀ i, i < pre.length →
      matchRun (pre ++ (dateOcc d1 d2 m1 m2 y1 y2 y3 y4 ++ post)) grnDateToks i = none)
    (hfirstP : ∀ i, i < pre.length →
      matchRun (pre ++ (dateOcc d1 d2 m1 m2 y1 y2 y3 y4 ++ post)) poDateToks2 i = none)
    (hex : extract_grn_data ⟨pre ++ (dateOcc d1 d2 m1 m2 y1 y2 y3 y4 ++ post)⟩ f
      = Except.ok (md, items)) :
    mdLookup md "GRN Date" = some (some ⟨dateChars d1 d2 m1 m2 y1 y2 y3 y4⟩) ∧
    mdLookup md "PO Date" = some (some ⟨dateChars d1 d2 m1 m2 y1 y2 y3 y4⟩) := by
  set s : List Char := pre ++ (dateOcc d1 d2 m1 m2 y1 y2 y3 y4 ++ post) with hs
  set i0 : Nat := pre.length with hi0
  have hdrop : s.drop i0 = dateOcc d1 d2 m1 m2 y1 y2 y3 y4 ++ post := by
    rw [hs, hi0]
    exact List.drop_left _ _
  have hprev : i0 = 0 ∨ (i0 ≠ 0 ∧ ∃ c, s[i0 - 1]? = some c ∧ isSpc c = true) := by
    rcases hws with h0 | ⟨c, pre0, hp, hspc⟩
    · left
      rw [hi0, h0]
      rfl
    · right
      refine ⟨by rw [hi0, hp]; simp, c, ?_, hspc⟩
      rw [hs, hi0, hp]
      have hl : (pre0 ++ [c]).length - 1 = pre0.length := by simp
      rw [hl, List.getElem?_append, if_pos (by simp), List.getElem?_concat_length]
  have hslen : s.length = i0 + 16 + post.length := by
    rw [hs, hi0]
    simp [List.length_append, dateOcc, dateChars]
    omega
  have hlen9 : grnDateToks.length = 9 := rfl
  have hfBg : fuelB grnDateToks s = (fuelB grnDateToks s - 14) + 14 := by
    unfold fuelB
    rw [hlen9]
    omega
  have hmrg : matchRun s grnDateToks i0 = some (i0 + 16, [(1, i0 + 6, i0 + 16)]) := by
    unfold matchRun
    rw [hfBg]
    exact fw_grnDate hdrop hd1 hd2 hm1 hm2 hy1 hy2 hy3 hy4 _
  have hlen12 : poDateToks2.length = 12 := rfl
  have hfBp : fuelB poDateToks2 s = (fuelB poDateToks2 s - 18) + 18 := by
    unfold fuelB
    rw [hlen12]
    omega
  have hmrp : matchRun s poDateToks2 i0 = some (i0 + 16, [(2, i0 + 6, i0 + 16)]) := by
    unfold matchRun
    rw [hfBp]
    exact fw_poDate2 hdrop hd1 hd2 hm1 hm2 hy1 hy2 hy3 hy4 hprev _
  have halt1 : ∀ pos, matchRun s poDateToks1 pos = none := by
    intro pos
    unfold matchRun
    rw [show poDateToks1 = Tok.lit true "PO Number".data ::
      (Tok.cls (fun c => c != '\n') 0 none true :: Tok.lit true "Date".data :: spcCls 0 ::
        Tok.lit true ":".data :: spcCls 0 :: dateGrp 1) from rfl]
    exact lit_head_none (hasLitCI_false_all hnp pos)
  have hsg : reSearch grnDatePat.alts s = some ⟨i0, i0 + 16, [(1, i0 + 6, i0 + 16)]⟩ := by
    unfold reSearch
    refine searchAux_first ?_ ?_ (s.length + 1) 0 (by omega) (by omega)
    · intro j hj
      rw [show grnDatePat.alts = [grnDateToks] from rfl, tryAlts_single]
      exact hfirstG j hj
    · rw [show grnDatePat.alts = [grnDateToks] from rfl, tryAlts_single]
      exact hmrg
  have hsp : reSearch poDatePat.alts s = some ⟨i0, i0 + 16, [(2, i0 + 6, i0 + 16)]⟩ := by
    unfold reSearch
    refine searchAux_first ?_ ?_ (s.length + 1) 0 (by omega) (by omega)
    · intro j hj
      rw [show poDatePat.alts = [poDateToks1, poDateToks2] from rfl,
        tryAlts_two_of_none (halt1 j)]
      exact hfirstP j hj
    · rw [show poDatePat.alts = [poDateToks1, poDateToks2] from rfl,
        tryAlts_two_of_none (halt1 i0)]
      exact hmrp
  have harith : i0 + 16 - (i0 + 6) = 10 := by omega
  have hcapg : capStr s [(1, i0 + 6, i0 + 16)] 1
      = some (dateChars d1 d2 m1 m2 y1 y2 y3 y4) := by
    unfold capStr
    rw [List.find?_cons_of_pos _ (by simp)]
    simp only []
    rw [harith, drop_shift hdrop]
    rw [show (dateOcc d1 d2 m1 m2 y1 y2 y3 y4 ++ post).drop 6
        = dateChars d1 d2 m1 m2 y1 y2 y3 y4 ++ post from rfl]
    rw [show (10 : Nat) = (dateChars d1 d2 m1 m2 y1 y2 y3 y4).length from rfl,
      List.take_left]
  have hcapp2 : capStr s [(2, i0 + 6, i0 + 16)] 2
      = some (dateChars d1 d2 m1 m2 y1 y2 y3 y4) := by
    unfold capStr
    rw [List.find?_cons_of_pos _ (by simp)]
    simp only []
    rw [harith, drop_shift hdrop]
    rw [show (dateOcc d1 d2 m1 m2 y1 y2 y3 y4 ++ post).drop 6
        = dateChars d1 d2 m1 m2 y1 y2 y3 y4 ++ post from rfl]
    rw [show (10 : Nat) = (dateChars d1 d2 m1 m2 y1 y2 y3 y4).length from rfl,
      List.take_left]
  have hcapp1 : capStr s [(2, i0 + 6, i0 + 16)] 1 = none := rfl
  have hne : (⟨dateChars d1 d2 m1 m2 y1 y2 y3 y4⟩ : String) ≠ "" := by
    intro hcon
    have h2 : (⟨dateChars d1 d2 m1 m2 y1 y2 y3 y4⟩ : String).data = ("" : String).data := by
      rw [hcon]
    simp [dateChars] at h2
  have htr : pyTruthy (some (⟨dateChars d1 d2 m1 m2 y1 y2 y3 y4⟩ : String)) = true := by
    simp only [pyTruthy, bne_iff_ne, ne_eq, decide_eq_true_eq]
    exact hne
  have hfvg : fieldValOf grnDatePat s
      = Except.ok (some ⟨dateChars d1 d2 m1 m2 y1 y2 y3 y4⟩) := by
    unfold fieldValOf
    rw [hsg]
    have hgo : groupOr 1 s [(1, i0 + 6, i0 + 16)]
        = Except.ok (some ⟨dateChars d1 d2 m1 m2 y1 y2 y3 y4⟩) := by
      unfold groupOr pyGroup
      rw [hcapg]
      simp only [if_pos (le_refl 1), Option.map_some', exbind_ok]
      rw [if_pos htr]
      rfl
    exact hgo
  have hfvp : fieldValOf poDatePat s
      = Except.ok (some ⟨dateChars d1 d2 m1 m2 y1 y2 y3 y4⟩) := by
    unfold fieldValOf
    rw [hsp]
    have hgo : groupOr 2 s [(2, i0 + 6, i0 + 16)]
        = Except.ok (some ⟨dateChars d1 d2 m1 m2 y1 y2 y3 y4⟩) := by
      unfold groupOr pyGroup
      simp only [if_pos (by omega : (1 : Nat) ≤ 2), if_pos (by omega : (2 : Nat) ≤ 2),
        hcapp1, Option.map_none, exbind_ok]
      rw [if_neg (by simp [pyTruthy])]
      rw [hcapp2]
      simp only [Option.map_some']
    exact hgo
  obtain ⟨gGrn, gGrnD, gVen, gPo, gPoD, gCons, gTrk, -, hgGrnD, -, -, hgPoD, -, -, -, hexN⟩ :=
    extract_norm ⟨s⟩ f
  have hgGrnD2 : fieldValOf grnDatePat s = Except.ok gGrnD := hgGrnD
  have hgPoD2 : fieldValOf poDatePat s = Except.ok gPoD := hgPoD
  have e2 : gGrnD = some ⟨dateChars d1 d2 m1 m2 y1 y2 y3 y4⟩ := by
    have he := hgGrnD2.symm.trans hfvg
    injection he
  have e5 : gPoD = some ⟨dateChars d1 d2 m1 m2 y1 y2 y3 y4⟩ := by
    have he := hgPoD2.symm.trans hfvp
    injection he
  rw [hex] at hexN
  injection hexN with hex1
  injection hex1 with hmd hitems
  subst hmd
  constructor
  · have hl : mdLookup (mdNorm gGrn gGrnD gVen gPo gPoD gCons gTrk f) "GRN Date"
        = some gGrnD := rfl
    rw [hl, e2]
  · have hl : mdLookup (mdNorm gGrn gGrnD gVen gPo gPoD gCons gTrk f) "PO Date"
        = some gPoD := rfl
    rw [hl, e5]

/-- C10 witness: the concrete text `Date: 01.02.2003` yields the same date
in both fields. -/
theorem C10_shared_date_anchor_witness :
    mdLookup [("GRN No", none), ("GRN Date", some "01.02.2003"),
      ("Vendor Invoice No", none), ("PO No", none), ("PO Date", some "01.02.2003"),
      ("Consignee Location", none), ("Truck No", none), ("Challan No", none),
      ("Source File", some "f")] "GRN Date" = some (some "01.02.2003") ∧
    mdLookup [("GRN No", none), ("GRN Date", some "01.02.2003"),
      ("Vendor Invoice No", none), ("PO No", none), ("PO Date", some "01.02.2003"),
      ("Consignee Location", none), ("Truck No", none), ("Challan No", none),
      ("Source File", some "f")] "PO Date" = some (some "01.02.2003") :=
  C10_shared_date_anchor [] [] '0' '1' '0' '2' '2' '0' '0' '3' "f"
    [("GRN No", none), ("GRN Date", some "01.02.2003"),
      ("Vendor Invoice No", none), ("PO No", none), ("PO Date", some "01.02.2003"),
      ("Consignee Location", none), ("Truck No", none), ("Challan No", none),
      ("Source File", some "f")] []
    (by decide) (by decide) (by decide) (by decide)
    (by decide) (by decide) (by decide) (by decide)
    (Or.inl rfl) (by decide)
    (fun i hi => absurd hi (Nat.not_lt_zero i))
    (fun i hi => absurd hi (Nat.not_lt_zero i))
    rfl

theorem mem_replaceCh {c old : Char} :
    ∀ {l : List Char}, c ∈ replaceCh old l → c = ' ' ∨ (c ∈ l ∧ c ≠ old) := by
  intro l
  induction l with
  | nil => intro h; simp [replaceCh] at h
  | cons a as ih =>
      intro h
      rw [replaceCh] at h
      rcases List.mem_cons.mp h with h1 | h1
      · by_cases ha : (a == old) = true
        · rw [if_pos ha] at h1
          exact Or.inl h1
        · rw [if_neg ha] at h1
          subst h1
          exact Or.inr ⟨List.mem_cons_self _ _, fun hco => ha (by rw [hco]; simp)⟩
      · rcases ih h1 with h2 | ⟨h2, h3⟩
        · exact Or.inl h2
        · exact Or.inr ⟨List.mem_cons_of_mem _ h2, h3⟩

theorem mem_replaceDbl {c : Char} :
    ∀ l : List Char, c ∈ replaceDbl l → c = ' ' ∨ c ∈ l := by
  intro l
  induction l using replaceDbl.induct with
  | case1 cs ih =>
      intro h
      rw [replaceDbl] at h
      rcases List.mem_cons.mp h with h1 | h1
      · exact Or.inl h1
      · rcases ih h1 with h2 | h2
        · exact Or.inl h2
        · exact Or.inr (by simp [h2])
  | case2 a as hg ih =>
      intro h
      have h2 : replaceDbl (a :: as) = a :: replaceDbl as := by
        rw [replaceDbl]
        exact hg
      rw [h2] at h
      rcases List.mem_cons.mp h with h1 | h1
      · exact Or.inr (by simp [h1])
      · rcases ih h1 with h2 | h2
        · exact Or.inl h2
        · exact Or.inr (by simp [h2])
  | case3 =>
      intro h
      simp [replaceDbl] at h

/-- C9: `clean_text` is exactly strip, then newline→space, then CR→space,
then one non-recursive left-to-right double-space collapse; it is total, no
newline or carriage return survives it, and a four-space run collapses only
to two spaces. -/
theorem C9_clean_text :
    (∀ t : String, clean_text t
      = ⟨replaceDbl (replaceCh '\r' (replaceCh '\n' (pyStrip t.data)))⟩) ∧
    (∀ t : String, '\n' ∉ (clean_text t).data ∧ '\r' ∉ (clean_text t).data) ∧
    clean_text "a    b" = "a  b" := by
  refine ⟨fun t => rfl, fun t => ⟨?_, ?_⟩, rfl⟩
  · intro hmem
    have h0 : (clean_text t).data
        = replaceDbl (replaceCh '\r' (replaceCh '\n' (pyStrip t.data))) := rfl
    rw [h0] at hmem
    rcases mem_replaceDbl _ hmem with h | h
    · exact absurd h (by decide)
    · rcases mem_replaceCh h with h | ⟨h, -⟩
      · exact absurd h (by decide)
      · rcases mem_replaceCh h with h | ⟨-, h⟩
        · exact absurd h (by decide)
        · exact h rfl
  · intro hmem
    have h0 : (clean_text t).data
        = replaceDbl (replaceCh '\r' (replaceCh '\n' (pyStrip t.data))) := rfl
    rw [h0] at hmem
    rcases mem_replaceDbl _ hmem with h | h
    · exact absurd h (by decide)
    · rcases mem_replaceCh h with h | ⟨-, h⟩
      · exact absurd h (by decide)
      · exact h rfl

end GRN
